import Mathlib

/-!
Verification development for the odai on-device conversational-AI runtime.

The definitions below are a shallow embedding of the C++ sources:
* `src/impl/utils/string_utils.cpp` (UTF-8 safe-length scan),
* `src/impl/backendEngine/odai_llama_backend_engine.cpp` (model/session cache,
  streaming generation loop),
* `src/impl/ragEngine/odai_rag_engine.cpp` (model registry, persistence
  orchestration),
* `src/impl/db/odai_sqlite_db.cpp` (chat store with nested transactions).

Bytes are modelled as `Nat`, strings exchanged with the inference runtime as
`List Nat` of bytes.  The external inference runtime (llama.cpp) is abstracted
by a per-token detokenization function `detok : Nat → List Nat` and an
end-of-generation predicate `isEog : Nat → Bool`; the C++ `detokenize`
concatenates the per-token pieces in order, which `detokList` mirrors.
Fallible external calls are modelled by explicit boolean/`Option` oracles.
-/

/-! ### Byte classification (mirrors the if-chain in `get_safe_utf8_length`) -/

/-- Classification of a byte exactly as the chain of mask tests in
`string_utils.cpp` performs it, in the same order:
ASCII `0xxxxxxx`, continuation `10xxxxxx`, 2-byte lead `110xxxxx`,
3-byte lead `1110xxxx`, 4-byte lead `11110xxx`, anything else. -/
inductive ByteClass where
  | ascii
  | cont
  | s2
  | s3
  | s4
  | invalid
deriving DecidableEq

/-- Byte classification by the mask tests of `get_safe_utf8_length`. -/
def byteClass (c : Nat) : ByteClass :=
  if c &&& 0x80 == 0 then .ascii
  else if c &&& 0xC0 == 0x80 then .cont
  else if c &&& 0xE0 == 0xC0 then .s2
  else if c &&& 0xF0 == 0xE0 then .s3
  else if c &&& 0xF8 == 0xF0 then .s4
  else .invalid

/-- Byte is an ASCII byte. -/
def isAscii (c : Nat) : Bool := match byteClass c with | .ascii => true | _ => false

/-- Byte is a UTF-8 continuation byte. -/
def isCont (c : Nat) : Bool := match byteClass c with | .cont => true | _ => false

/-- Byte is a 2-byte-sequence lead byte. -/
def isS2 (c : Nat) : Bool := match byteClass c with | .s2 => true | _ => false

/-- Byte is a 3-byte-sequence lead byte. -/
def isS3 (c : Nat) : Bool := match byteClass c with | .s3 => true | _ => false

/-- Byte is a 4-byte-sequence lead byte. -/
def isS4 (c : Nat) : Bool := match byteClass c with | .s4 => true | _ => false

/-- A byte list is the complete encoding of one UTF-8 character
(structurally: correct lead byte followed by the right number of
continuation bytes). -/
def validChar : List Nat → Bool
  | [a] => isAscii a
  | [a, b] => isS2 a && isCont b
  | [a, b, c] => isS3 a && isCont b && isCont c
  | [a, b, c, d] => isS4 a && isCont b && isCont c && isCont d
  | _ => false

/-- A byte list is a proper (possibly empty) front part of the encoding of a
single multi-byte UTF-8 character: a lead byte followed by too few
continuation bytes. -/
def partialChar : List Nat → Bool
  | [] => true
  | [a] => isS2 a || isS3 a || isS4 a
  | [a, b] => (isS3 a || isS4 a) && isCont b
  | [a, b, c] => isS4 a && isCont b && isCont c
  | _ => false

/-- A byte list is a concatenation of complete UTF-8 character encodings. -/
inductive ValidUtf8 : List Nat → Prop where
  | nil : ValidUtf8 []
  | cons (c r : List Nat) : validChar c = true → ValidUtf8 r → ValidUtf8 (c ++ r)

/-! ### `get_safe_utf8_length` (`string_utils.cpp`, lines 6-25)

The C++ scans backwards up to 4 bytes (`for (i = 0; i < 4 && i < len; ++i)`)
looking at `buffer[len - 1 - i]`.  The loop bound `i < 4` is encoded by the
structural fuel argument (4 at `i = 0`). -/

/-- Backward scan of `get_safe_utf8_length` from offset `i` with `fuel = 4 - i`
iterations remaining. -/
def safeScan (buf : List Nat) (len : Nat) : Nat → Nat → Nat
  | 0, _ => len
  | fuel + 1, i =>
    if i < len then
      match byteClass (buf.getD (len - 1 - i) 0) with
      | .ascii => len
      | .cont => safeScan buf len fuel (i + 1)
      | .s2 => if 1 ≤ i then len else len - 1 - i
      | .s3 => if 2 ≤ i then len else len - 1 - i
      | .s4 => if 3 ≤ i then len else len - 1 - i
      | .invalid => safeScan buf len fuel (i + 1)
    else len

/-- Translation of `get_safe_utf8_length`: length of the longest front part of
`buf` that does not end inside a multi-byte UTF-8 sequence. -/
def get_safe_utf8_length (buf : List Nat) : Nat :=
  if buf.length = 0 then 0 else safeScan buf buf.length 4 0

/-! ### The streaming generation loop
(`ODAILlamaEngine::generate_streaming_response_impl`, lines 401-454, and
`ODAILlamaEngine::flush_utf8_safe_output`, lines 272-287).

The sampler is modelled by the list of tokens it would produce in order (the
"script"); exhausting the script models a sampling/decode failure, which the
C++ reports as `-1`.  The caller's callback is modelled as a function of the
full history of chunks delivered so far (covering stateful callbacks); its
result decides whether generation continues. -/

/-- Detokenization of a token list: concatenation of the per-token pieces, as
`ODAILlamaEngine::detokenize` builds it. -/
def detokList (detok : Nat → List Nat) (ts : List Nat) : List Nat :=
  (ts.map detok).flatten

/-- Local state of one `generate_streaming_response_impl` run, plus the list
of chunks delivered to the callback so far (one entry per invocation). -/
structure StreamState where
  emitted : List (List Nat)
  output_buffer : List Nat
  buffered_tokens : List Nat
  total_tokens : Nat
deriving DecidableEq

/-- Translation of `flush_utf8_safe_output`: append the detokenized buffered
tokens to the output buffer, split at the safe UTF-8 length, return the safe
part and retain the unsafe tail; the token buffer is cleared. -/
def flush_utf8_safe_output (detok : Nat → List Nat) (st : StreamState) :
    List Nat × StreamState :=
  let ob := st.output_buffer ++ detokList detok st.buffered_tokens
  let safe_len := get_safe_utf8_length ob
  (ob.take safe_len,
   { st with output_buffer := ob.drop safe_len, buffered_tokens := [] })

/-- Translation of the loop of `generate_streaming_response_impl`.  Returns
the C++ return value (`-1` failure sentinel, else the token count) together
with the list of chunks delivered to the callback. -/
def generate_streaming_response_impl (detok : Nat → List Nat)
    (isEog : Nat → Bool) (cb : List (List Nat) → Bool) :
    List Nat → StreamState → Int × List (List Nat)
  | [], st => (-1, st.emitted)
  | t :: rest, st =>
    if isEog t then
      if st.buffered_tokens.isEmpty then ((st.total_tokens : Int), st.emitted)
      else
        let fl := flush_utf8_safe_output detok st
        ((st.total_tokens : Int), st.emitted ++ [fl.1])
    else
      let st1 := { st with buffered_tokens := st.buffered_tokens ++ [t],
                           total_tokens := st.total_tokens + 1 }
      if st1.buffered_tokens.length % 20 == 0 then
        let fl := flush_utf8_safe_output detok st1
        let st2 := { fl.2 with emitted := st1.emitted ++ [fl.1] }
        if cb st2.emitted then
          generate_streaming_response_impl detok isEog cb rest st2
        else ((st1.total_tokens : Int), st2.emitted)
      else generate_streaming_response_impl detok isEog cb rest st1

/-- Initial state of a streaming run. -/
def initStream : StreamState := ⟨[], [], [], 0⟩

/-! ### The llama engine's session-context cache
(`odai_llama_backend_engine.cpp`).  A cache entry is identified by its chat
id; the decode context / sampler handles themselves are opaque and carry no
information relevant to the cache logic. -/

/-- State of `ODAILlamaEngine` relevant to model loading and the per-chat
session cache: the `isInitialized` flag, the path held in
`llm_model_config.modelPath`, whether `llmModel` is non-null, and the keys of
the `chat_context` map. -/
structure EngineState where
  isInitialized : Bool
  llmModelPath : String
  llmLoaded : Bool
  chat_context : List String
deriving DecidableEq

/-- Translation of `ODAILlamaEngine::load_language_model` (lines 146-193).
`loadOk` models whether `llama_model_load_from_file` and the vocabulary
lookup succeed. -/
def load_language_model (loadOk : Bool) (cfgPath : String) (s : EngineState) :
    Bool × EngineState :=
  if s.isInitialized = false then (false, s)
  else if s.llmModelPath = cfgPath then (true, s)
  else
    let s1 := { s with chat_context := [] }
    if loadOk then (true, { s1 with llmLoaded := true, llmModelPath := cfgPath })
    else (false, { s1 with llmLoaded := false })

/-- Translation of `ODAILlamaEngine::is_chat_context_loaded` (lines 667-670). -/
def is_chat_context_loaded (s : EngineState) (id : String) : Bool :=
  s.chat_context.contains id

/-- Translation of `ODAILlamaEngine::unload_chat_context` (lines 672-683):
erase and report `true` when the entry exists, otherwise log a warning and
report `false`. -/
def unload_chat_context (s : EngineState) (id : String) : Bool × EngineState :=
  if s.chat_context.contains id then
    (true, { s with chat_context := s.chat_context.erase id })
  else (false, s)

/-- Translation of `ODAIRagEngine::unload_chat_session` (lines 236-244) for a
non-null backend engine: it delegates to `unload_chat_context`. -/
def unload_chat_session (s : EngineState) (id : String) : Bool × EngineState :=
  unload_chat_context s id

/-- Translation of `ODAILlamaEngine::load_chat_messages_into_context`
(lines 566-628).  `ok` models success of context/sampler creation, prompt
formatting and decode. -/
def load_chat_messages_into_context (ok : Bool) (id : String)
    (s : EngineState) : Bool × EngineState :=
  if s.isInitialized = false then (false, s)
  else if id = "" then (false, s)
  else if s.chat_context.contains id then (true, s)
  else if s.llmLoaded = false then (false, s)
  else if ok then (true, { s with chat_context := id :: s.chat_context })
  else (false, s)

/-! ### The model registry (`odai_rag_engine.cpp`).
`calculate_file_checksum` is modelled by a function `fs : String → String`
from paths to checksums, with `""` meaning the file is unreadable (the C++
helper returns the empty string on failure). -/

/-- A row of the `models` table: name, path, checksum recorded at
registration, and model type. -/
structure ModelRecord where
  name : String
  path : String
  checksum : String
  mtype : Nat
deriving DecidableEq

/-- State of `ODAIRagEngine`'s registry: the persistent `models` table and
the in-memory `m_modelPathCache` (most recent binding first). -/
structure RagState where
  dbModels : List ModelRecord
  modelPathCache : List (String × String)
deriving DecidableEq

/-- Lookup in `m_modelPathCache`. -/
def cacheLookup (c : List (String × String)) (n : String) : Option String :=
  (c.find? (fun e => e.1 == n)).map (fun e => e.2)

/-- Translation of the store's `get_model_checksum`. -/
def get_model_checksum (s : RagState) (name : String) : Option String :=
  (s.dbModels.find? (fun r => r.name == name)).map (fun r => r.checksum)

/-- Translation of the store's `get_model_path`. -/
def db_get_model_path (s : RagState) (name : String) : Option String :=
  (s.dbModels.find? (fun r => r.name == name)).map (fun r => r.path)

/-- Translation of the store's `update_model_path`: rewrite the path of the
named record, failing when the name is unknown. -/
def db_update_model_path (s : RagState) (name path : String) :
    Bool × RagState :=
  if s.dbModels.any (fun r => r.name == name) then
    (true, { s with dbModels :=
        (s.dbModels.map (fun r =>
          if r.name == name then { r with path := path } else r)) })
  else (false, s)

/-- Translation of the store's `register_model`: insert a fresh record,
failing when the name already exists. -/
def db_register_model (s : RagState) (name path : String) (ty : Nat)
    (checksum : String) : Bool × RagState :=
  if s.dbModels.any (fun r => r.name == name) then (false, s)
  else (true, { s with dbModels := s.dbModels ++ [⟨name, path, checksum, ty⟩] })

/-- Translation of `ODAIRagEngine::register_model` (lines 14-30). -/
def register_model (fs : String → String) (name path : String) (ty : Nat)
    (s : RagState) : Bool × RagState :=
  let checksum := fs path
  if checksum = "" then (false, s)
  else
    let r := db_register_model s name path ty checksum
    if r.1 then
      (true, { r.2 with modelPathCache := (name, path) :: r.2.modelPathCache })
    else (false, r.2)

/-- Translation of `ODAIRagEngine::update_model_path` (lines 32-61). -/
def update_model_path (fs : String → String) (name path : String)
    (s : RagState) : Bool × RagState :=
  let checksum := fs path
  if checksum = "" then (false, s)
  else
    match get_model_checksum s name with
    | none => (false, s)
    | some old =>
      if checksum ≠ old then (false, s)
      else
        let r := db_update_model_path s name path
        if r.1 then
          (true, { r.2 with modelPathCache := (name, path) :: r.2.modelPathCache })
        else (false, r.2)

/-- Translation of `ODAIRagEngine::resolve_model_path` (lines 246-266):
cache first, then the store (populating the cache on a hit).  Returns the
success flag, the resolved path and the possibly updated state. -/
def resolve_model_path (s : RagState) (name : String) :
    Bool × String × RagState :=
  match cacheLookup s.modelPathCache name with
  | some p => (true, p, s)
  | none =>
    match db_get_model_path s name with
    | some p => (true, p, { s with modelPathCache := (name, p) :: s.modelPathCache })
    | none => (false, "", s)

/-! ### The SQLite chat store (`odai_sqlite_db.cpp`).

The store models the `chats` and `chat_messages` tables split into their
committed rows and the rows pending inside the open physical transaction
(SQLite statements on the same connection see both).  `commits` is a ghost
counter of physical commits, used to state "exactly one physical commit".
Statement failures (unique-constraint violations, I/O errors) are modelled by
explicit oracles where a claim needs them. -/

/-- A row of the `chat_messages` table. -/
structure MsgRow where
  chat_id : String
  role : String
  content : String
  seq : Nat
deriving DecidableEq

/-- State of `ODAISqliteDb`: committed rows, rows pending in the open
physical transaction, the nesting depth `m_transaction_depth`, whether
`m_transaction` is non-null, and the ghost count of physical commits. -/
structure DbState where
  chats : List String
  msgs : List MsgRow
  pChats : List String
  pMsgs : List MsgRow
  depth : Nat
  txOpen : Bool
  commits : Nat
deriving DecidableEq

/-- Chat ids visible to statements on this connection (committed plus
pending in the own open transaction). -/
def visChats (s : DbState) : List String := s.chats ++ s.pChats

/-- Message rows visible to statements on this connection. -/
def visMsgs (s : DbState) : List MsgRow := s.msgs ++ s.pMsgs

/-- Translation of `ODAISqliteDb::begin_transaction` (lines 338-367):
increment the depth and open the physical transaction when the depth becomes
one.  `fail` models the exceptional path (whose catch block restores the
previous depth and returns `false`). -/
def begin_transaction (fail : Bool) (s : DbState) : Bool × DbState :=
  if fail then (false, s)
  else (true, { s with depth := s.depth + 1,
                       txOpen := if s.depth + 1 = 1 then true else s.txOpen })

/-- Translation of `ODAISqliteDb::commit_transaction` (lines 369-403): with
no active transaction it warns and returns `false`; otherwise it decrements
the depth and, on reaching zero, physically commits.  `fail` models a failing
physical commit, after which the code leaves the transaction object in place
(the depth is already decremented). -/
def commit_transaction (fail : Bool) (s : DbState) : Bool × DbState :=
  if 0 < s.depth then
    if s.depth - 1 = 0 then
      if s.txOpen then
        if fail then (false, { s with depth := 0 })
        else
          (true, { s with depth := 0, txOpen := false,
                          chats := s.chats ++ s.pChats,
                          msgs := s.msgs ++ s.pMsgs,
                          pChats := [], pMsgs := [],
                          commits := s.commits + 1 })
      else (true, { s with depth := 0 })
    else (true, { s with depth := s.depth - 1 })
  else (false, s)

/-- Translation of `ODAISqliteDb::rollback_transaction` (lines 405-427):
destroy any physical transaction (discarding all uncommitted work) and force
the depth to zero. -/
def rollback_transaction (s : DbState) : Bool × DbState :=
  (true, { s with pChats := [], pMsgs := [], depth := 0, txOpen := false })

/-- Next `sequence_index` for a chat, as the `COALESCE(MAX(sequence_index)+1,
0)` subquery computes it over the visible rows. -/
def nextSeq (s : DbState) (cid : String) : Nat :=
  ((visMsgs s).filter (fun r => r.chat_id == cid)).foldr
    (fun r m => max (r.seq + 1) m) 0

/-- One `INSERT INTO chat_messages` execution: the row lands in the pending
set while a physical transaction is open, otherwise it is auto-committed. -/
def insertMsgRow (s : DbState) (cid role content : String) : DbState :=
  let row : MsgRow := ⟨cid, role, content, nextSeq s cid⟩
  if s.txOpen then { s with pMsgs := s.pMsgs ++ [row] }
  else { s with msgs := s.msgs ++ [row] }

/-- The per-message loop of `insert_chat_messages`: on the `failAt`-th
insertion the statement throws, the inner catch rolls back and the outer
catch returns `false`; after the loop the nested commit runs (its return
value is ignored by the C++). -/
def insertLoop (cid : String) (failAt : Option Nat) :
    Nat → List (String × String) → DbState → Bool × DbState
  | _, [], s => (true, (commit_transaction false s).2)
  | i, m :: rest, s =>
    if failAt = some i then (false, (rollback_transaction s).2)
    else insertLoop cid failAt (i + 1) rest (insertMsgRow s cid m.1 m.2)

/-- Translation of `ODAISqliteDb::insert_chat_messages` (lines 269-320): an
empty batch is a no-op success; otherwise the batch runs inside a nested
begin/commit, with rollback-and-fail on any per-message failure. -/
def insert_chat_messages (failAt : Option Nat) (cid : String)
    (messages : List (String × String)) (s : DbState) : Bool × DbState :=
  if messages.isEmpty then (true, s)
  else insertLoop cid failAt 0 messages (begin_transaction false s).2

/-- Translation of `ODAISqliteDb::chat_id_exists` (lines 90-108).  The
`SELECT 1 ... LIMIT 1` is run through `Statement::exec()`, which throws as
soon as the statement yields a row; the catch block then returns `false`.
With no matching row the statement completes and the function returns
`true`.  The returned value is therefore the negation of row existence. -/
def chat_id_exists (s : DbState) (cid : String) : Bool :=
  if (visChats s).contains cid then false else true

/-- Translation of `ODAISqliteDb::create_chat` (lines 110-154): begin a
transaction, insert the chat row (a duplicate id violates the UNIQUE
constraint, the statement throws and the outer catch returns `false` with no
rollback or commit), insert the system-prompt message, commit. -/
def create_chat (cfgOk : Bool) (cid : String) (sysPrompt : String)
    (s : DbState) : Bool × DbState :=
  if cfgOk = false then (false, s)
  else
    let s1 := (begin_transaction false s).2
    if (visChats s1).contains cid then (false, s1)
    else
      let s2 := if s1.txOpen then { s1 with pChats := s1.pChats ++ [cid] }
                else { s1 with chats := s1.chats ++ [cid] }
      let r := insert_chat_messages none cid [("system", sysPrompt)] s2
      (true, (commit_transaction false r.2).2)

/-- Translation of `ODAISqliteDb::get_chat_history` (lines 198-263): the
visible rows of the chat ordered by `sequence_index`; with no rows the
function reports failure. -/
def get_chat_history (s : DbState) (cid : String) : Bool × List MsgRow :=
  let rows := List.insertionSort (fun a b => a.seq ≤ b.seq)
    ((visMsgs s).filter (fun r => r.chat_id == cid))
  if rows.isEmpty then (false, []) else (true, rows)

/-- Translation of `ODAISdk::create_chat` (lines 185-233): with an explicit
chat id the duplicate pre-check `chat_id_exists` runs before creation; with
an empty incoming id a generated id (`generated`) is used without the check.
Returns the success flag, `chatIdOut` and the resulting store. -/
def sdk_create_chat (sdkInit cfgOk : Bool) (chatIdIn generated : String)
    (sysPrompt : String) (s : DbState) : Bool × String × DbState :=
  if sdkInit = false then (false, "", s)
  else if cfgOk = false then (false, "", s)
  else if chatIdIn = "" then
    let r := create_chat cfgOk generated sysPrompt s
    (r.1, generated, r.2)
  else if chat_id_exists s chatIdIn then (false, chatIdIn, s)
  else
    let r := create_chat cfgOk chatIdIn sysPrompt s
    (r.1, chatIdIn, r.2)

/-- Translation of `ODAISdk::get_chat_history` (lines 266-294). -/
def sdk_get_chat_history (sdkInit : Bool) (s : DbState) (cid : String) :
    Bool × List MsgRow :=
  if sdkInit = false then (false, [])
  else if cid = "" then (false, [])
  else get_chat_history s cid

/-! ### Persistence phase of `ODAIRagEngine::generate_streaming_chat_response`
(lines 185-233): after the backend generation returned `total` tokens, the
user/assistant pair is persisted inside a transaction; any failure rolls the
store back and the call returns the `-1` sentinel. -/

/-- Failure oracle for the persistence phase: whether `begin_transaction`
fails, which message insertion (if any) throws, and whether the physical
commit fails. -/
structure PersistOracle where
  beginFail : Bool
  insertFailAt : Option Nat
  commitFail : Bool

/-- Translation of the persistence tail of
`ODAIRagEngine::generate_streaming_chat_response`: a negative generation
result propagates as `-1`; otherwise begin, insert the user and assistant
messages, commit, rolling back and returning `-1` on any failure. -/
def generate_streaming_chat_response_persist (o : PersistOracle)
    (cid userText asstText : String) (total : Int) (s : DbState) :
    Int × DbState :=
  if total < 0 then (-1, s)
  else
    let b := begin_transaction o.beginFail s
    if b.1 = false then (-1, b.2)
    else
      let ins := insert_chat_messages o.insertFailAt cid
        [("user", userText), ("assistant", asstText)] b.2
      if ins.1 = false then (-1, (rollback_transaction ins.2).2)
      else
        let c := commit_transaction o.commitFail ins.2
        if c.1 = false then (-1, (rollback_transaction c.2).2)
        else (total, c.2)

/-! ### Ordering instances for the `ORDER BY sequence_index` model -/

instance : IsTotal MsgRow (fun a b => a.seq ≤ b.seq) :=
  ⟨fun a b => Nat.le_total a.seq b.seq⟩

instance : IsTrans MsgRow (fun a b => a.seq ≤ b.seq) :=
  ⟨fun _ _ _ h1 h2 => Nat.le_trans h1 h2⟩

/-! ## Helper lemmas -/

/-- Folding the max-of-successors over an appended list. -/
theorem seqFold_append (l1 l2 : List MsgRow) :
    (l1 ++ l2).foldr (fun r m => max (r.seq + 1) m) 0
      = max (l1.foldr (fun r m => max (r.seq + 1) m) 0)
            (l2.foldr (fun r m => max (r.seq + 1) m) 0) := by
  induction l1 with
  | nil => simp
  | cons x xs ih => simp [ih, Nat.max_assoc]

/-- Appending a pending row for the same chat bumps `nextSeq` to the max of
the old value and the new row's successor. -/
theorem nextSeq_pending_append (s : DbState) (cid : String) (row : MsgRow)
    (hrow : row.chat_id = cid) :
    nextSeq { s with pMsgs := s.pMsgs ++ [row] } cid
      = max (nextSeq s cid) (row.seq + 1) := by
  have hfr : (List.filter (fun r => r.chat_id == cid) [row]) = [row] := by
    simp [hrow]
  simp only [nextSeq, visMsgs, List.filter_append, hfr, seqFold_append,
    List.foldr_cons, List.foldr_nil]
  omega

/-- A `find?` over an appended list skips a front part with no match. -/
theorem find?_append_of_none {α : Type} (p : α → Bool) (l1 l2 : List α)
    (h : l1.find? p = none) : (l1 ++ l2).find? p = l2.find? p := by
  induction l1 with
  | nil => simp
  | cons x xs ih =>
    rw [List.find?_cons] at h
    cases hx : p x with
    | true => simp [hx] at h
    | false =>
      simp only [hx] at h
      simp [List.find?_cons, hx, ih h]

/-! ## Claim C1 -/

/-- Loading the language model never inserts cache entries, so the
"uninitialized engines have an empty cache" invariant is preserved. -/
theorem load_language_model_preserves_uninit_empty
    (loadOk : Bool) (cfgPath : String) (s : EngineState)
    (hinv : s.isInitialized = false → s.chat_context = []) :
    (load_language_model loadOk cfgPath s).2.isInitialized = false →
    (load_language_model loadOk cfgPath s).2.chat_context = [] := by
  unfold load_language_model
  by_cases hinit : s.isInitialized = false
  · simp [hinit, hinv hinit]
  · simp only [hinit]
    by_cases hp : s.llmModelPath = cfgPath
    · simpa [hp] using hinv
    · cases loadOk <;> simp [hp]

/-- Cache entries are only created by `load_chat_messages_into_context`, and
only on an initialized engine, so the invariant is preserved there too. -/
theorem load_chat_messages_preserves_uninit_empty
    (ok : Bool) (id : String) (s : EngineState)
    (hinv : s.isInitialized = false → s.chat_context = []) :
    (load_chat_messages_into_context ok id s).2.isInitialized = false →
    (load_chat_messages_into_context ok id s).2.chat_context = [] := by
  unfold load_chat_messages_into_context
  by_cases hinit : s.isInitialized = false
  · simp [hinit, hinv hinit]
  · simp only [hinit]
    by_cases h1 : id = "" <;> by_cases h2 : s.chat_context.contains id <;>
      by_cases h3 : s.llmLoaded = false <;> cases ok <;>
        simp_all

/-- C1.  A `load_language_model` call whose configured path differs from the
currently recorded model path discards every cached per-chat session entry
before attempting the load, so `is_chat_context_loaded` is false for every
chat id immediately afterwards (whether or not the load itself succeeds).
The hypothesis is the reachability invariant that an uninitialized engine
has an empty cache (entries are only created by
`load_chat_messages_into_context`, which requires initialization). -/
theorem load_language_model_clears_all_chat_contexts
    (loadOk : Bool) (cfgPath : String) (s : EngineState)
    (hinv : s.isInitialized = false → s.chat_context = [])
    (hdiff : s.llmModelPath ≠ cfgPath) :
    ∀ id, is_chat_context_loaded (load_language_model loadOk cfgPath s).2 id
      = false := by
  intro id
  unfold load_language_model is_chat_context_loaded
  by_cases hinit : s.isInitialized = false
  · simp [hinit, hinv hinit]
  · cases loadOk <;> simp [hinit, hdiff]

/-- Witness for C1 at a concrete engine state with one cached session. -/
theorem load_language_model_clears_all_chat_contexts_witness :
    is_chat_context_loaded
      (load_language_model true "b.gguf"
        ⟨true, "a.gguf", true, ["c1"]⟩).2 "c1" = false :=
  load_language_model_clears_all_chat_contexts true "b.gguf"
    ⟨true, "a.gguf", true, ["c1"]⟩ (by intro h; cases h) (by decide) "c1"

/-! ## Claim C6 -/

/-- Successful registration shapes the state: the checksum computed for the
registered path was non-empty, the name was fresh, and the new record and
cache binding were added. -/
theorem register_model_success_shape
    (fs : String → String) (name pa : String) (ty : Nat) (s0 s : RagState)
    (hreg : register_model fs name pa ty s0 = (true, s)) :
    fs pa ≠ "" ∧ (s0.dbModels.any fun r => r.name == name) = false ∧
    s = ⟨s0.dbModels ++ [⟨name, pa, fs pa, ty⟩],
         (name, pa) :: s0.modelPathCache⟩ := by
  unfold register_model db_register_model at hreg
  by_cases hpa : fs pa = ""
  · simp [hpa] at hreg
  · by_cases hany : (s0.dbModels.any fun r => r.name == name) = true
    · simp [hpa, hany] at hreg
    · rw [Bool.not_eq_true] at hany
      simp only [hpa, if_false, hany, Bool.false_eq_true, if_neg] at hreg
      refine ⟨hpa, hany, ?_⟩
      have h2 := congrArg Prod.snd hreg
      simp at h2
      exact h2.symm

/-- C6.  After a successful registration of `name` at path `pa`, an
`update_model_path` to a path `pb` whose checksum differs from the one
recorded at registration returns failure and leaves the whole registry state
(persistent records and in-memory path cache) unchanged, and resolving the
name afterwards still yields the originally registered path `pa`. -/
theorem update_model_path_checksum_mismatch_unchanged
    (fs : String → String) (name pa pb : String) (ty : Nat)
    (s0 s : RagState)
    (hreg : register_model fs name pa ty s0 = (true, s))
    (hck : fs pb ≠ "") (hdiff : fs pb ≠ fs pa) :
    update_model_path fs name pb s = (false, s) ∧
    resolve_model_path s name = (true, pa, s) ∧
    resolve_model_path (update_model_path fs name pb s).2 name
      = resolve_model_path s name := by
  obtain ⟨hpa, hany, hs⟩ := register_model_success_shape fs name pa ty s0 s hreg
  subst hs
  have hfind : s0.dbModels.find? (fun r => r.name == name) = none := by
    rw [List.find?_eq_none]
    intro x hx hcontra
    have : (s0.dbModels.any fun r => r.name == name) = true :=
      List.any_of_mem hx hcontra
    rw [hany] at this
    cases this
  have hcksum : get_model_checksum
      ⟨s0.dbModels ++ [⟨name, pa, fs pa, ty⟩],
       (name, pa) :: s0.modelPathCache⟩ name = some (fs pa) := by
    unfold get_model_checksum
    rw [show (⟨s0.dbModels ++ [⟨name, pa, fs pa, ty⟩],
         (name, pa) :: s0.modelPathCache⟩ : RagState).dbModels
       = s0.dbModels ++ [⟨name, pa, fs pa, ty⟩] from rfl]
    rw [find?_append_of_none _ _ _ hfind]
    simp
  have hupd : update_model_path fs name pb
      ⟨s0.dbModels ++ [⟨name, pa, fs pa, ty⟩],
       (name, pa) :: s0.modelPathCache⟩
      = (false, ⟨s0.dbModels ++ [⟨name, pa, fs pa, ty⟩],
                 (name, pa) :: s0.modelPathCache⟩) := by
    unfold update_model_path
    rw [if_neg hck, hcksum]
    simp [hdiff]
  have hres : resolve_model_path
      ⟨s0.dbModels ++ [⟨name, pa, fs pa, ty⟩],
       (name, pa) :: s0.modelPathCache⟩ name
      = (true, pa, ⟨s0.dbModels ++ [⟨name, pa, fs pa, ty⟩],
                    (name, pa) :: s0.modelPathCache⟩) := by
    unfold resolve_model_path cacheLookup
    simp
  exact ⟨hupd, hres, by rw [hupd]⟩

/-- Witness for C6: register a model, then try to repoint it at a file with
different content. -/
theorem update_model_path_checksum_mismatch_unchanged_witness :
    update_model_path (fun p => if p = "a.bin" then "ck-a" else "ck-b")
        "m1" "b.bin" ⟨[⟨"m1", "a.bin", "ck-a", 0⟩], [("m1", "a.bin")]⟩
      = (false, ⟨[⟨"m1", "a.bin", "ck-a", 0⟩], [("m1", "a.bin")]⟩) ∧
    resolve_model_path ⟨[⟨"m1", "a.bin", "ck-a", 0⟩], [("m1", "a.bin")]⟩ "m1"
      = (true, "a.bin", ⟨[⟨"m1", "a.bin", "ck-a", 0⟩], [("m1", "a.bin")]⟩) ∧
    resolve_model_path
        (update_model_path (fun p => if p = "a.bin" then "ck-a" else "ck-b")
          "m1" "b.bin" ⟨[⟨"m1", "a.bin", "ck-a", 0⟩], [("m1", "a.bin")]⟩).2 "m1"
      = resolve_model_path ⟨[⟨"m1", "a.bin", "ck-a", 0⟩], [("m1", "a.bin")]⟩ "m1" :=
  update_model_path_checksum_mismatch_unchanged
    (fun p => if p = "a.bin" then "ck-a" else "ck-b") "m1" "a.bin" "b.bin" 0
    ⟨[], []⟩ ⟨[⟨"m1", "a.bin", "ck-a", 0⟩], [("m1", "a.bin")]⟩
    (by decide) (by decide) (by decide)

/-! ## Claim C7 -/

/-- C7 counterexample.  Unloading a chat session whose id has no cached
entry does NOT report success: the call returns `false` (with a warning
log), so the operation is not success-idempotent as claimed; the cache is
left unchanged. -/
theorem unload_chat_session_missing_reports_failure :
    (unload_chat_session ⟨true, "a.gguf", true, []⟩ "c1").1 = false ∧
    (unload_chat_session ⟨true, "a.gguf", true, []⟩ "c1").2
      = ⟨true, "a.gguf", true, []⟩ := by
  constructor <;> rfl

/-- C7 as amended.  Unloading removes and releases the cached entry and
returns `true` when the entry exists; for a chat id with no cached entry the
cache is left unchanged and the call returns `false` (logged as a warning,
no exception) rather than reporting success. -/
theorem unload_chat_session_spec (s : EngineState) (id : String) :
    (s.chat_context.contains id = true →
      unload_chat_session s id
        = (true, { s with chat_context := s.chat_context.erase id })) ∧
    (s.chat_context.contains id = false →
      unload_chat_session s id = (false, s)) := by
  constructor <;> intro h <;>
    (unfold unload_chat_session unload_chat_context; rw [h]; simp)

/-- Witness for the amended C7 at a concrete state holding one entry. -/
theorem unload_chat_session_spec_witness :
    ((["c1"] : List String).contains "c1" = true →
      unload_chat_session ⟨true, "a.gguf", true, ["c1"]⟩ "c1"
        = (true, ⟨true, "a.gguf", true, (["c1"] : List String).erase "c1"⟩)) ∧
    ((["c1"] : List String).contains "c1" = false →
      unload_chat_session ⟨true, "a.gguf", true, ["c1"]⟩ "c1"
        = (false, ⟨true, "a.gguf", true, ["c1"]⟩)) :=
  unload_chat_session_spec ⟨true, "a.gguf", true, ["c1"]⟩ "c1"

/-! ## Claim C8 -/

/-- C8.  The duplicate-id pre-check is inverted at the public boundary:
`chat_id_exists` returns `true` exactly for ids with no row in `chats` (the
row makes `exec()` throw, which the catch maps to `false`), so the SDK's
`create_chat` with an explicitly supplied fresh chat id reports the id as
already existing, returns failure, and creates nothing. -/
theorem chat_id_exists_inverted_blocks_create_chat
    (s : DbState) (cid generated sysPrompt : String)
    (hcid : cid ≠ "")
    (hnotin : (visChats s).contains cid = false) :
    chat_id_exists s cid = true ∧
    (∀ cid2, (visChats s).contains cid2 = true →
      chat_id_exists s cid2 = false) ∧
    sdk_create_chat true true cid generated sysPrompt s = (false, cid, s) := by
  have he : chat_id_exists s cid = true := by
    unfold chat_id_exists
    rw [hnotin]
    simp
  refine ⟨he, fun cid2 h2 => ?_, ?_⟩
  · unfold chat_id_exists
    rw [h2]
    simp
  · unfold sdk_create_chat
    rw [he]
    simp [hcid]

/-- Witness for C8 on an empty store and the fresh id `"c1"`. -/
theorem chat_id_exists_inverted_blocks_create_chat_witness :
    chat_id_exists ⟨[], [], [], [], 0, false, 0⟩ "c1" = true ∧
    (∀ cid2, (visChats ⟨[], [], [], [], 0, false, 0⟩).contains cid2 = true →
      chat_id_exists ⟨[], [], [], [], 0, false, 0⟩ cid2 = false) ∧
    sdk_create_chat true true "c1" "gen" "sys" ⟨[], [], [], [], 0, false, 0⟩
      = (false, "c1", ⟨[], [], [], [], 0, false, 0⟩) :=
  chat_id_exists_inverted_blocks_create_chat ⟨[], [], [], [], 0, false, 0⟩
    "c1" "gen" "sys" (by decide) (by decide)

/-! ## Claim C9 -/

/-- C9.  For a chat id with no visible rows in `chat_messages` (including
ids never created), `get_chat_history` reports failure rather than an empty
list; on success the returned list is non-empty and ordered by
`sequence_index`. -/
theorem get_chat_history_nonempty_sorted (s : DbState) (cid : String) :
    ((visMsgs s).filter (fun r => r.chat_id == cid) = [] →
      get_chat_history s cid = (false, [])) ∧
    (∀ rows, get_chat_history s cid = (true, rows) →
      rows ≠ [] ∧ rows.Pairwise (fun a b => a.seq ≤ b.seq)) := by
  constructor
  · intro h
    unfold get_chat_history
    simp [h]
  · intro rows hrows
    unfold get_chat_history at hrows
    by_cases hemp : (List.insertionSort (fun a b => a.seq ≤ b.seq)
        ((visMsgs s).filter (fun r => r.chat_id == cid))).isEmpty
    · simp [hemp] at hrows
    · simp only [hemp, if_false, Bool.false_eq_true, if_neg] at hrows
      have hrw : rows = List.insertionSort (fun a b => a.seq ≤ b.seq)
          ((visMsgs s).filter (fun r => r.chat_id == cid)) :=
        (Prod.mk.injEq _ _ _ _ ▸ hrows).2.symm
      constructor
      · rw [hrw]
        intro hnil
        rw [hnil] at hemp
        exact hemp rfl
      · rw [hrw]
        exact List.sorted_insertionSort (fun a b : MsgRow => a.seq ≤ b.seq) _

/-- Witness for C9 on a store with one visible message for `"c"`. -/
theorem get_chat_history_nonempty_sorted_witness :
    ((visMsgs ⟨[], [⟨"c", "user", "x", 0⟩], [], [], 0, false, 0⟩).filter
        (fun r => r.chat_id == "c") = [] →
      get_chat_history ⟨[], [⟨"c", "user", "x", 0⟩], [], [], 0, false, 0⟩ "c"
        = (false, [])) ∧
    (∀ rows, get_chat_history
        ⟨[], [⟨"c", "user", "x", 0⟩], [], [], 0, false, 0⟩ "c"
        = (true, rows) →
      rows ≠ [] ∧ rows.Pairwise (fun a b => a.seq ≤ b.seq)) :=
  get_chat_history_nonempty_sorted
    ⟨[], [⟨"c", "user", "x", 0⟩], [], [], 0, false, 0⟩ "c"

/-! ## Claim C10 -/

/-- C10.  When `create_chat` is called for a chat id that already has a
visible row in `chats`, the insert throws and the outer catch returns
`false` without any rollback or commit: the transaction depth stays
incremented (positive) and the physical transaction stays open; no committed
or pending data changes and no physical commit happens. -/
theorem create_chat_duplicate_leaves_transaction_open
    (s : DbState) (cid sysPrompt : String)
    (hdup : (visChats s).contains cid = true)
    (hinv : s.txOpen = decide (0 < s.depth)) :
    create_chat true cid sysPrompt s
      = (false, { s with depth := s.depth + 1, txOpen := true }) ∧
    0 < (create_chat true cid sysPrompt s).2.depth ∧
    (create_chat true cid sysPrompt s).2.txOpen = true ∧
    (create_chat true cid sysPrompt s).2.commits = s.commits := by
  have hopen : (if s.depth + 1 = 1 then true else s.txOpen) = true := by
    cases hd : s.depth with
    | zero => simp
    | succ n => rw [hinv, hd]; simp
  have hb : (begin_transaction false s).2
      = { s with depth := s.depth + 1, txOpen := true } := by
    unfold begin_transaction
    simp only [Bool.false_eq_true, if_false]
    rw [hopen]
  have h1 : create_chat true cid sysPrompt s
      = (false, { s with depth := s.depth + 1, txOpen := true }) := by
    unfold create_chat
    rw [hb]
    have hvc : visChats { s with depth := s.depth + 1, txOpen := true }
        = visChats s := rfl
    have hmem : cid ∈ visChats s := by simpa using hdup
    simp [hvc, hdup, hmem]
  exact ⟨h1, by simp [h1], by simp [h1], by simp [h1]⟩

/-- Witness for C10: the duplicate id `"c1"` on a store already holding it. -/
theorem create_chat_duplicate_leaves_transaction_open_witness :
    create_chat true "c1" "sys" ⟨["c1"], [], [], [], 0, false, 0⟩
      = (false, { (⟨["c1"], [], [], [], 0, false, 0⟩ : DbState) with
          depth := 0 + 1, txOpen := true }) ∧
    0 < (create_chat true "c1" "sys" ⟨["c1"], [], [], [], 0, false, 0⟩).2.depth ∧
    (create_chat true "c1" "sys" ⟨["c1"], [], [], [], 0, false, 0⟩).2.txOpen
      = true ∧
    (create_chat true "c1" "sys" ⟨["c1"], [], [], [], 0, false, 0⟩).2.commits
      = 0 :=
  create_chat_duplicate_leaves_transaction_open
    ⟨["c1"], [], [], [], 0, false, 0⟩ "c1" "sys" (by decide) (by decide)

/-! ## Claim C3 -/

/-- C3.  The transaction primitives give stack semantics on the depth
counter.  From a quiescent store, `begin; begin; commit; commit` (with work
inserted in both nested scopes) performs exactly one physical commit — the
ghost `commits` counter increases only on the commit call that takes the
depth from 1 to 0, and the inner commit publishes nothing; `begin; begin;
rollback` discards the physical transaction and all pending work from both
scopes and forces the depth to 0; and each of begin/commit/rollback
preserves the invariant that a physical transaction is open iff the depth is
positive. -/
theorem nested_transaction_stack_semantics
    (s : DbState) (h0 : s.depth = 0) (hop : s.txOpen = false)
    (hpc : s.pChats = []) (hpm : s.pMsgs = [])
    (cid role1 content1 role2 content2 : String) :
    (∀ s1 s2 s3 s4,
      (begin_transaction false s).2 = s1 →
      insertMsgRow s1 cid role1 content1 = s2 →
      (begin_transaction false s2).2 = s3 →
      insertMsgRow s3 cid role2 content2 = s4 →
      (commit_transaction false s4).1 = true ∧
      (commit_transaction false s4).2.commits = s.commits ∧
      (commit_transaction false s4).2.msgs = s.msgs ∧
      (commit_transaction false s4).2.txOpen = true ∧
      (commit_transaction false (commit_transaction false s4).2).1 = true ∧
      (commit_transaction false (commit_transaction false s4).2).2.commits
        = s.commits + 1 ∧
      (commit_transaction false (commit_transaction false s4).2).2.depth = 0 ∧
      (commit_transaction false (commit_transaction false s4).2).2.txOpen
        = false ∧
      (commit_transaction false (commit_transaction false s4).2).2.msgs
        = s.msgs ++ [⟨cid, role1, content1, nextSeq s cid⟩,
                     ⟨cid, role2, content2, nextSeq s cid + 1⟩] ∧
      (rollback_transaction s4).1 = true ∧
      (rollback_transaction s4).2.depth = 0 ∧
      (rollback_transaction s4).2.txOpen = false ∧
      (rollback_transaction s4).2.pMsgs = [] ∧
      (rollback_transaction s4).2.pChats = [] ∧
      (rollback_transaction s4).2.msgs = s.msgs ∧
      (rollback_transaction s4).2.commits = s.commits) ∧
    (∀ t : DbState, t.txOpen = decide (0 < t.depth) →
      (begin_transaction false t).2.txOpen
        = decide (0 < (begin_transaction false t).2.depth) ∧
      (commit_transaction false t).2.txOpen
        = decide (0 < (commit_transaction false t).2.depth) ∧
      (rollback_transaction t).2.txOpen
        = decide (0 < (rollback_transaction t).2.depth)) := by
  constructor
  · intro s1 s2 s3 s4 e1 e2 e3 e4
    obtain ⟨cs, ms, pc, pm, d, tw, co⟩ := s
    simp only at h0 hop hpc hpm
    subst h0; subst hop; subst hpc; subst hpm
    have hb1 : (begin_transaction false ⟨cs, ms, [], [], 0, false, co⟩).2
        = ⟨cs, ms, [], [], 1, true, co⟩ := rfl
    rw [hb1] at e1
    subst e1
    have hb2 : insertMsgRow (⟨cs, ms, [], [], 1, true, co⟩ : DbState)
        cid role1 content1
        = ⟨cs, ms, [],
           [⟨cid, role1, content1,
             nextSeq ⟨cs, ms, [], [], 0, false, co⟩ cid⟩], 1, true, co⟩ := rfl
    rw [hb2] at e2
    subst e2
    have hb3 : (begin_transaction false
        (⟨cs, ms, [],
          [⟨cid, role1, content1,
            nextSeq ⟨cs, ms, [], [], 0, false, co⟩ cid⟩], 1, true, co⟩ :
            DbState)).2
        = ⟨cs, ms, [],
           [⟨cid, role1, content1,
             nextSeq ⟨cs, ms, [], [], 0, false, co⟩ cid⟩], 2, true, co⟩ := rfl
    rw [hb3] at e3
    subst e3
    have hseq : nextSeq
        (⟨cs, ms, [],
          [⟨cid, role1, content1,
            nextSeq ⟨cs, ms, [], [], 0, false, co⟩ cid⟩], 2, true, co⟩ :
            DbState) cid
        = nextSeq ⟨cs, ms, [], [], 0, false, co⟩ cid + 1 := by
      have h := nextSeq_pending_append
        (⟨cs, ms, [], [], 2, true, co⟩ : DbState) cid
        ⟨cid, role1, content1, nextSeq ⟨cs, ms, [], [], 0, false, co⟩ cid⟩ rfl
      simp only [List.nil_append] at h
      rw [h]
      have hsame : nextSeq (⟨cs, ms, [], [], 2, true, co⟩ : DbState) cid
          = nextSeq (⟨cs, ms, [], [], 0, false, co⟩ : DbState) cid := rfl
      rw [hsame]
      omega
    have hb4 : insertMsgRow
        (⟨cs, ms, [],
          [⟨cid, role1, content1,
            nextSeq ⟨cs, ms, [], [], 0, false, co⟩ cid⟩], 2, true, co⟩ :
            DbState) cid role2 content2
        = ⟨cs, ms, [],
           [⟨cid, role1, content1,
             nextSeq ⟨cs, ms, [], [], 0, false, co⟩ cid⟩,
            ⟨cid, role2, content2,
             nextSeq ⟨cs, ms, [], [], 0, false, co⟩ cid + 1⟩], 2, true, co⟩ := by
      unfold insertMsgRow
      rw [hseq]
      rfl
    rw [hb4] at e4
    subst e4
    refine ⟨rfl, rfl, rfl, rfl, rfl, rfl, rfl, rfl, ?_, rfl, rfl, rfl, rfl,
            rfl, rfl, rfl⟩
    show ms ++ ([⟨cid, role1, content1,
        nextSeq ⟨cs, ms, [], [], 0, false, co⟩ cid⟩,
      ⟨cid, role2, content2,
        nextSeq ⟨cs, ms, [], [], 0, false, co⟩ cid + 1⟩] : List MsgRow)
      = ms ++ [⟨cid, role1, content1,
          nextSeq ⟨cs, ms, [], [], 0, false, co⟩ cid⟩,
        ⟨cid, role2, content2,
          nextSeq ⟨cs, ms, [], [], 0, false, co⟩ cid + 1⟩]
    rfl
  · intro t ht
    refine ⟨?_, ?_, ?_⟩
    · unfold begin_transaction
      simp only [Bool.false_eq_true, if_false]
      by_cases h1 : t.depth + 1 = 1
      · simp [h1]
      · simp only [h1, if_false]
        rw [ht]
        simp only [decide_eq_decide]
        omega
    · unfold commit_transaction
      by_cases h1 : 0 < t.depth
      · by_cases h2 : t.depth - 1 = 0
        · by_cases h3 : t.txOpen = true
          · simp [h1, h2, h3]
          · rw [ht] at h3
            simp [h1] at h3
        · simp only [h1, if_true, h2, Bool.false_eq_true, if_false]
          rw [ht]
          simp only [decide_eq_decide]
          omega
      · rw [if_neg h1]
        exact ht
    · simp [rollback_transaction]

/-- Witness for C3: the two nested-scope sequences run on an empty store. -/
theorem nested_transaction_stack_semantics_witness :
    ((commit_transaction false
        ⟨[], [], [], [⟨"c", "u", "x", 0⟩, ⟨"c", "v", "y", 1⟩], 2, true, 0⟩).1
      = true ∧
    (commit_transaction false
        ⟨[], [], [], [⟨"c", "u", "x", 0⟩, ⟨"c", "v", "y", 1⟩], 2, true, 0⟩).2.commits
      = 0 ∧
    (commit_transaction false
        ⟨[], [], [], [⟨"c", "u", "x", 0⟩, ⟨"c", "v", "y", 1⟩], 2, true, 0⟩).2.msgs
      = [] ∧
    (commit_transaction false
        ⟨[], [], [], [⟨"c", "u", "x", 0⟩, ⟨"c", "v", "y", 1⟩], 2, true, 0⟩).2.txOpen
      = true ∧
    (commit_transaction false (commit_transaction false
        ⟨[], [], [], [⟨"c", "u", "x", 0⟩, ⟨"c", "v", "y", 1⟩], 2, true, 0⟩).2).1
      = true ∧
    (commit_transaction false (commit_transaction false
        ⟨[], [], [], [⟨"c", "u", "x", 0⟩, ⟨"c", "v", "y", 1⟩], 2, true, 0⟩).2).2.commits
      = 0 + 1 ∧
    (commit_transaction false (commit_transaction false
        ⟨[], [], [], [⟨"c", "u", "x", 0⟩, ⟨"c", "v", "y", 1⟩], 2, true, 0⟩).2).2.depth
      = 0 ∧
    (commit_transaction false (commit_transaction false
        ⟨[], [], [], [⟨"c", "u", "x", 0⟩, ⟨"c", "v", "y", 1⟩], 2, true, 0⟩).2).2.txOpen
      = false ∧
    (commit_transaction false (commit_transaction false
        ⟨[], [], [], [⟨"c", "u", "x", 0⟩, ⟨"c", "v", "y", 1⟩], 2, true, 0⟩).2).2.msgs
      = [] ++ [⟨"c", "u", "x", nextSeq ⟨[], [], [], [], 0, false, 0⟩ "c"⟩,
               ⟨"c", "v", "y", nextSeq ⟨[], [], [], [], 0, false, 0⟩ "c" + 1⟩] ∧
    (rollback_transaction
        ⟨[], [], [], [⟨"c", "u", "x", 0⟩, ⟨"c", "v", "y", 1⟩], 2, true, 0⟩).1
      = true ∧
    (rollback_transaction
        ⟨[], [], [], [⟨"c", "u", "x", 0⟩, ⟨"c", "v", "y", 1⟩], 2, true, 0⟩).2.depth
      = 0 ∧
    (rollback_transaction
        ⟨[], [], [], [⟨"c", "u", "x", 0⟩, ⟨"c", "v", "y", 1⟩], 2, true, 0⟩).2.txOpen
      = false ∧
    (rollback_transaction
        ⟨[], [], [], [⟨"c", "u", "x", 0⟩, ⟨"c", "v", "y", 1⟩], 2, true, 0⟩).2.pMsgs
      = [] ∧
    (rollback_transaction
        ⟨[], [], [], [⟨"c", "u", "x", 0⟩, ⟨"c", "v", "y", 1⟩], 2, true, 0⟩).2.pChats
      = [] ∧
    (rollback_transaction
        ⟨[], [], [], [⟨"c", "u", "x", 0⟩, ⟨"c", "v", "y", 1⟩], 2, true, 0⟩).2.msgs
      = [] ∧
    (rollback_transaction
        ⟨[], [], [], [⟨"c", "u", "x", 0⟩, ⟨"c", "v", "y", 1⟩], 2, true, 0⟩).2.commits
      = 0) ∧
    ((begin_transaction false ⟨[], [], [], [], 0, false, 0⟩).2.txOpen
      = decide (0 < (begin_transaction false
          ⟨[], [], [], [], 0, false, 0⟩).2.depth) ∧
    (commit_transaction false ⟨[], [], [], [], 0, false, 0⟩).2.txOpen
      = decide (0 < (commit_transaction false
          ⟨[], [], [], [], 0, false, 0⟩).2.depth) ∧
    (rollback_transaction ⟨[], [], [], [], 0, false, 0⟩).2.txOpen
      = decide (0 < (rollback_transaction
          ⟨[], [], [], [], 0, false, 0⟩).2.depth)) :=
  ⟨(nested_transaction_stack_semantics ⟨[], [], [], [], 0, false, 0⟩
      rfl rfl rfl rfl "c" "u" "x" "v" "y").1
    ⟨[], [], [], [], 1, true, 0⟩
    ⟨[], [], [], [⟨"c", "u", "x", 0⟩], 1, true, 0⟩
    ⟨[], [], [], [⟨"c", "u", "x", 0⟩], 2, true, 0⟩
    ⟨[], [], [], [⟨"c", "u", "x", 0⟩, ⟨"c", "v", "y", 1⟩], 2, true, 0⟩
    rfl rfl rfl rfl,
   (nested_transaction_stack_semantics ⟨[], [], [], [], 0, false, 0⟩
      rfl rfl rfl rfl "c" "u" "x" "v" "y").2
    ⟨[], [], [], [], 0, false, 0⟩ rfl⟩

/-! ## Claim C4 -/

/-- C4.  In the persistence phase of `generate_streaming_chat_response`,
whenever the generation returned a non-negative token count but persisting
the user/assistant pair fails (transaction begin, either message insertion,
or the physical commit), the store is rolled back — committed rows, depth
and the open-transaction flag are as before the call — and the operation
returns the `-1` sentinel; when no persistence step fails the two messages
are committed as one atomic unit (both rows appear, with consecutive
sequence indices, under a single physical commit) and the token count is
returned. -/
theorem generate_streaming_chat_response_persist_atomic
    (o : PersistOracle) (cid u a : String) (total : Int) (s : DbState)
    (hd : s.depth = 0) (htx : s.txOpen = false)
    (hpc : s.pChats = []) (hpm : s.pMsgs = [])
    (htot : 0 ≤ total) :
    (o.beginFail = true ∨ (∃ i, o.insertFailAt = some i ∧ i < 2) ∨
        o.commitFail = true →
      (generate_streaming_chat_response_persist o cid u a total s).1 = -1 ∧
      (generate_streaming_chat_response_persist o cid u a total s).2.msgs
        = s.msgs ∧
      (generate_streaming_chat_response_persist o cid u a total s).2.chats
        = s.chats ∧
      (generate_streaming_chat_response_persist o cid u a total s).2.depth
        = 0 ∧
      (generate_streaming_chat_response_persist o cid u a total s).2.txOpen
        = false ∧
      (generate_streaming_chat_response_persist o cid u a total s).2.pMsgs
        = []) ∧
    (o.beginFail = false → o.insertFailAt = none → o.commitFail = false →
      (generate_streaming_chat_response_persist o cid u a total s).1
        = total ∧
      (generate_streaming_chat_response_persist o cid u a total s).2.msgs
        = s.msgs ++ [⟨cid, "user", u, nextSeq s cid⟩,
                     ⟨cid, "assistant", a, nextSeq s cid + 1⟩] ∧
      (generate_streaming_chat_response_persist o cid u a total s).2.depth
        = 0 ∧
      (generate_streaming_chat_response_persist o cid u a total s).2.txOpen
        = false ∧
      (generate_streaming_chat_response_persist o cid u a total s).2.commits
        = s.commits + 1) := by
  obtain ⟨bf, ifa, cf⟩ := o
  obtain ⟨cs, ms, pc, pm, d, tw, co⟩ := s
  simp only at hd htx hpc hpm
  subst hd; subst htx; subst hpc; subst hpm
  have hnlt : ¬(total < 0) := by omega
  cases bf with
  | true =>
    have hres : generate_streaming_chat_response_persist ⟨true, ifa, cf⟩
        cid u a total ⟨cs, ms, [], [], 0, false, co⟩
        = (-1, ⟨cs, ms, [], [], 0, false, co⟩) := by
      unfold generate_streaming_chat_response_persist
      rw [if_neg hnlt]
      rfl
    refine ⟨fun _ => ?_, fun hbf _ _ => ?_⟩
    · rw [hres]
      exact ⟨rfl, rfl, rfl, rfl, rfl, rfl⟩
    · simp at hbf
  | false =>
    cases ifa with
    | some i =>
      match i with
      | 0 =>
        have hres : generate_streaming_chat_response_persist
            ⟨false, some 0, cf⟩ cid u a total ⟨cs, ms, [], [], 0, false, co⟩
            = (-1, ⟨cs, ms, [], [], 0, false, co⟩) := by
          unfold generate_streaming_chat_response_persist
          rw [if_neg hnlt]
          rfl
        refine ⟨fun _ => ?_, fun _ hia _ => ?_⟩
        · rw [hres]
          exact ⟨rfl, rfl, rfl, rfl, rfl, rfl⟩
        · simp at hia
      | 1 =>
        have hres : generate_streaming_chat_response_persist
            ⟨false, some 1, cf⟩ cid u a total ⟨cs, ms, [], [], 0, false, co⟩
            = (-1, ⟨cs, ms, [], [], 0, false, co⟩) := by
          unfold generate_streaming_chat_response_persist
          rw [if_neg hnlt]
          rfl
        refine ⟨fun _ => ?_, fun _ hia _ => ?_⟩
        · rw [hres]
          exact ⟨rfl, rfl, rfl, rfl, rfl, rfl⟩
        · simp at hia
      | (j + 2) =>
        have hloop : insertLoop cid (some (j + 2)) 0
            [("user", u), ("assistant", a)] ⟨cs, ms, [], [], 2, true, co⟩
            = (true, (commit_transaction false
                (insertMsgRow
                  (insertMsgRow (⟨cs, ms, [], [], 2, true, co⟩ : DbState)
                    cid "user" u) cid "assistant" a)).2) := by
          simp only [insertLoop]
          rw [if_neg (by simp), if_neg (by simp : ¬(some (j + 2) = some 1))]
        cases cf with
        | true =>
          have hres : generate_streaming_chat_response_persist
              ⟨false, some (j + 2), true⟩ cid u a total
              ⟨cs, ms, [], [], 0, false, co⟩
              = (-1, ⟨cs, ms, [], [], 0, false, co⟩) := by
            unfold generate_streaming_chat_response_persist
            rw [if_neg hnlt]
            show (let ins := insert_chat_messages (some (j + 2)) cid
                    [("user", u), ("assistant", a)]
                    ⟨cs, ms, [], [], 1, true, co⟩
                  if ins.1 = false then
                    (-1, (rollback_transaction ins.2).2)
                  else
                    let c := commit_transaction true ins.2
                    if c.1 = false then (-1, (rollback_transaction c.2).2)
                    else (total, c.2)) = _
            rw [show insert_chat_messages (some (j + 2)) cid
                  [("user", u), ("assistant", a)]
                  ⟨cs, ms, [], [], 1, true, co⟩
                = insertLoop cid (some (j + 2)) 0
                  [("user", u), ("assistant", a)]
                  ⟨cs, ms, [], [], 2, true, co⟩ from rfl]
            rw [hloop]
            rfl
          refine ⟨fun _ => ?_, fun _ hia _ => ?_⟩
          · rw [hres]
            exact ⟨rfl, rfl, rfl, rfl, rfl, rfl⟩
          · simp at hia
        | false =>
          refine ⟨fun h => ?_, fun _ hia _ => ?_⟩
          · rcases h with h | ⟨i2, hia, hlt⟩ | h
            · simp at h
            · simp only [Option.some.injEq] at hia
              omega
            · simp at h
          · simp at hia
    | none =>
      have hseq1 : nextSeq
          (⟨cs, ms, [],
            [⟨cid, "user", u,
              nextSeq ⟨cs, ms, [], [], 0, false, co⟩ cid⟩], 2, true, co⟩ :
              DbState) cid
          = nextSeq ⟨cs, ms, [], [], 0, false, co⟩ cid + 1 := by
        have h := nextSeq_pending_append
          (⟨cs, ms, [], [], 2, true, co⟩ : DbState) cid
          ⟨cid, "user", u, nextSeq ⟨cs, ms, [], [], 0, false, co⟩ cid⟩ rfl
        simp only [List.nil_append] at h
        rw [h]
        have hsame : nextSeq (⟨cs, ms, [], [], 2, true, co⟩ : DbState) cid
            = nextSeq (⟨cs, ms, [], [], 0, false, co⟩ : DbState) cid := rfl
        rw [hsame]
        omega
      cases cf with
      | true =>
        have hres : generate_streaming_chat_response_persist
            ⟨false, none, true⟩ cid u a total
            ⟨cs, ms, [], [], 0, false, co⟩
            = (-1, ⟨cs, ms, [], [], 0, false, co⟩) := by
          unfold generate_streaming_chat_response_persist
          rw [if_neg hnlt]
          rfl
        refine ⟨fun _ => ?_, fun _ _ hcf => ?_⟩
        · rw [hres]
          exact ⟨rfl, rfl, rfl, rfl, rfl, rfl⟩
        · simp at hcf
      | false =>
        have hres : generate_streaming_chat_response_persist
            ⟨false, none, false⟩ cid u a total
            ⟨cs, ms, [], [], 0, false, co⟩
            = (total,
               ⟨cs ++ [], ms ++
                  [⟨cid, "user", u,
                    nextSeq ⟨cs, ms, [], [], 0, false, co⟩ cid⟩,
                   ⟨cid, "assistant", a,
                    nextSeq (⟨cs, ms, [],
                      [⟨cid, "user", u,
                        nextSeq ⟨cs, ms, [], [], 0, false, co⟩ cid⟩],
                      2, true, co⟩ : DbState) cid⟩],
                [], [], 0, false, co + 1⟩) := by
          unfold generate_streaming_chat_response_persist
          rw [if_neg hnlt]
          rfl
        refine ⟨fun h => ?_, fun _ _ _ => ?_⟩
        · rcases h with h | ⟨i2, hia, hlt⟩ | h
          · simp at h
          · simp at hia
          · simp at h
        · rw [hres, hseq1]
          exact ⟨rfl, by simp, rfl, rfl, rfl⟩

/-- Witness for C4: a successful persist of one exchange on an empty store
(`total = 5`, no failures). -/
theorem generate_streaming_chat_response_persist_atomic_witness :
    ((PersistOracle.mk false none false).beginFail = true ∨
      (∃ i, (PersistOracle.mk false none false).insertFailAt = some i ∧
        i < 2) ∨
      (PersistOracle.mk false none false).commitFail = true →
      (generate_streaming_chat_response_persist ⟨false, none, false⟩
        "c" "hi" "yo" 5 ⟨[], [], [], [], 0, false, 0⟩).1 = -1 ∧
      (generate_streaming_chat_response_persist ⟨false, none, false⟩
        "c" "hi" "yo" 5 ⟨[], [], [], [], 0, false, 0⟩).2.msgs = [] ∧
      (generate_streaming_chat_response_persist ⟨false, none, false⟩
        "c" "hi" "yo" 5 ⟨[], [], [], [], 0, false, 0⟩).2.chats = [] ∧
      (generate_streaming_chat_response_persist ⟨false, none, false⟩
        "c" "hi" "yo" 5 ⟨[], [], [], [], 0, false, 0⟩).2.depth = 0 ∧
      (generate_streaming_chat_response_persist ⟨false, none, false⟩
        "c" "hi" "yo" 5 ⟨[], [], [], [], 0, false, 0⟩).2.txOpen = false ∧
      (generate_streaming_chat_response_persist ⟨false, none, false⟩
        "c" "hi" "yo" 5 ⟨[], [], [], [], 0, false, 0⟩).2.pMsgs = []) ∧
    ((PersistOracle.mk false none false).beginFail = false →
      (PersistOracle.mk false none false).insertFailAt = none →
      (PersistOracle.mk false none false).commitFail = false →
      (generate_streaming_chat_response_persist ⟨false, none, false⟩
        "c" "hi" "yo" 5 ⟨[], [], [], [], 0, false, 0⟩).1 = 5 ∧
      (generate_streaming_chat_response_persist ⟨false, none, false⟩
        "c" "hi" "yo" 5 ⟨[], [], [], [], 0, false, 0⟩).2.msgs
        = [] ++ [⟨"c", "user", "hi",
                   nextSeq ⟨[], [], [], [], 0, false, 0⟩ "c"⟩,
                 ⟨"c", "assistant", "yo",
                   nextSeq ⟨[], [], [], [], 0, false, 0⟩ "c" + 1⟩] ∧
      (generate_streaming_chat_response_persist ⟨false, none, false⟩
        "c" "hi" "yo" 5 ⟨[], [], [], [], 0, false, 0⟩).2.depth = 0 ∧
      (generate_streaming_chat_response_persist ⟨false, none, false⟩
        "c" "hi" "yo" 5 ⟨[], [], [], [], 0, false, 0⟩).2.txOpen = false ∧
      (generate_streaming_chat_response_persist ⟨false, none, false⟩
        "c" "hi" "yo" 5 ⟨[], [], [], [], 0, false, 0⟩).2.commits = 0 + 1) :=
  generate_streaming_chat_response_persist_atomic ⟨false, none, false⟩
    "c" "hi" "yo" 5 ⟨[], [], [], [], 0, false, 0⟩ rfl rfl rfl rfl
    (by omega)

/-! ## UTF-8 theory for the streaming claims -/

/-- Characterization of `isAscii` by `byteClass`. -/
theorem isAscii_iff (a : Nat) : isAscii a = true ↔ byteClass a = .ascii := by
  unfold isAscii
  cases h : byteClass a <;> simp [h]

/-- Characterization of `isCont` by `byteClass`. -/
theorem isCont_iff (a : Nat) : isCont a = true ↔ byteClass a = .cont := by
  unfold isCont
  cases h : byteClass a <;> simp [h]

/-- Characterization of `isS2` by `byteClass`. -/
theorem isS2_iff (a : Nat) : isS2 a = true ↔ byteClass a = .s2 := by
  unfold isS2
  cases h : byteClass a <;> simp [h]

/-- Characterization of `isS3` by `byteClass`. -/
theorem isS3_iff (a : Nat) : isS3 a = true ↔ byteClass a = .s3 := by
  unfold isS3
  cases h : byteClass a <;> simp [h]

/-- Characterization of `isS4` by `byteClass`. -/
theorem isS4_iff (a : Nat) : isS4 a = true ↔ byteClass a = .s4 := by
  unfold isS4
  cases h : byteClass a <;> simp [h]

/-- The four shapes of a complete character encoding. -/
theorem validChar_shapes (c : List Nat) (h : validChar c = true) :
    (∃ a, c = [a] ∧ byteClass a = .ascii) ∨
    (∃ a b, c = [a, b] ∧ byteClass a = .s2 ∧ byteClass b = .cont) ∨
    (∃ a b c2, c = [a, b, c2] ∧ byteClass a = .s3 ∧ byteClass b = .cont ∧
      byteClass c2 = .cont) ∨
    (∃ a b c2 d, c = [a, b, c2, d] ∧ byteClass a = .s4 ∧
      byteClass b = .cont ∧ byteClass c2 = .cont ∧ byteClass d = .cont) := by
  match c with
  | [] => simp [validChar] at h
  | [a] =>
    simp only [validChar] at h
    exact Or.inl ⟨a, rfl, (isAscii_iff a).mp h⟩
  | [a, b] =>
    simp only [validChar, Bool.and_eq_true] at h
    exact Or.inr (Or.inl ⟨a, b, rfl, (isS2_iff a).mp h.1, (isCont_iff b).mp h.2⟩)
  | [a, b, c2] =>
    simp only [validChar, Bool.and_eq_true] at h
    exact Or.inr (Or.inr (Or.inl ⟨a, b, c2, rfl, (isS3_iff a).mp h.1.1,
      (isCont_iff b).mp h.1.2, (isCont_iff c2).mp h.2⟩))
  | [a, b, c2, d] =>
    simp only [validChar, Bool.and_eq_true] at h
    exact Or.inr (Or.inr (Or.inr ⟨a, b, c2, d, rfl, (isS4_iff a).mp h.1.1.1,
      (isCont_iff b).mp h.1.1.2, (isCont_iff c2).mp h.1.2,
      (isCont_iff d).mp h.2⟩))
  | a :: b :: c2 :: d :: x :: xs => simp [validChar] at h

/-- The four shapes of a front part of a single character encoding. -/
theorem partialChar_shapes (p : List Nat) (h : partialChar p = true) :
    p = [] ∨
    (∃ a, p = [a] ∧ (byteClass a = .s2 ∨ byteClass a = .s3 ∨
      byteClass a = .s4)) ∨
    (∃ a b, p = [a, b] ∧ (byteClass a = .s3 ∨ byteClass a = .s4) ∧
      byteClass b = .cont) ∨
    (∃ a b c2, p = [a, b, c2] ∧ byteClass a = .s4 ∧ byteClass b = .cont ∧
      byteClass c2 = .cont) := by
  match p with
  | [] => exact Or.inl rfl
  | [a] =>
    have h2 : (isS2 a || isS3 a || isS4 a) = true := h
    refine Or.inr (Or.inl ⟨a, rfl, ?_⟩)
    cases hcl : byteClass a <;> simp_all [isS2, isS3, isS4]
  | [a, b] =>
    have h2 : ((isS3 a || isS4 a) && isCont b) = true := h
    refine Or.inr (Or.inr (Or.inl ⟨a, b, rfl, ?_, ?_⟩))
    · cases hcl : byteClass a <;> simp_all [isS3, isS4, isCont]
    · cases hcl : byteClass b <;> simp_all [isS3, isS4, isCont]
  | [a, b, c2] =>
    have h2 : (isS4 a && isCont b && isCont c2) = true := h
    refine Or.inr (Or.inr (Or.inr ⟨a, b, c2, rfl, ?_, ?_, ?_⟩))
    · cases hcl : byteClass a <;> simp_all [isS4, isCont]
    · cases hcl : byteClass b <;> simp_all [isS4, isCont]
    · cases hcl : byteClass c2 <;> simp_all [isS4, isCont]
  | a :: b :: c2 :: d :: xs => simp [partialChar] at h

/-- Concatenations of complete characters are closed under append. -/
theorem validUtf8_append (x y : List Nat) (hx : ValidUtf8 x)
    (hy : ValidUtf8 y) : ValidUtf8 (x ++ y) := by
  induction hx with
  | nil => simpa using hy
  | cons c r hc _ ih =>
    rw [List.append_assoc]
    exact .cons c (r ++ y) hc ih

/-- A non-empty valid byte string ends with a complete character. -/
theorem validUtf8_last (v : List Nat) (h : ValidUtf8 v) :
    v = [] ∨ ∃ v' c, v = v' ++ c ∧ validChar c = true ∧ ValidUtf8 v' := by
  induction h with
  | nil => exact Or.inl rfl
  | cons c r hc _ ih =>
    right
    rcases ih with hnil | ⟨r', c2, hr', hc2, hv'⟩
    · exact ⟨[], c, by simp [hnil], hc, .nil⟩
    · exact ⟨c ++ r', c2, by rw [hr', List.append_assoc], hc2,
        .cons c r' hc hv'⟩

/-- The length of a complete character encoding is determined by the class
of its first byte. -/
theorem validChar_head_length (c : List Nat) (h : validChar c = true) :
    ∃ x t, c = x :: t ∧
      c.length = (match byteClass x with
        | .ascii => 1 | .cont => 0 | .s2 => 2 | .s3 => 3 | .s4 => 4
        | .invalid => 0) := by
  rcases validChar_shapes c h with ⟨a, rfl, h1⟩ | ⟨a, b, rfl, h1, _⟩ |
    ⟨a, b, c2, rfl, h1, _, _⟩ | ⟨a, b, c2, d, rfl, h1, _, _, _⟩
  · exact ⟨a, [], rfl, by simp [h1]⟩
  · exact ⟨a, [b], rfl, by simp [h1]⟩
  · exact ⟨a, [b, c2], rfl, by simp [h1]⟩
  · exact ⟨a, [b, c2, d], rfl, by simp [h1]⟩

/-- Stripping a leading complete character from a valid byte string leaves a
valid byte string (the first-byte class makes the parse unambiguous). -/
theorem validUtf8_drop_char (c x : List Nat) (hc : validChar c = true)
    (h : ValidUtf8 (c ++ x)) : ValidUtf8 x := by
  generalize hgen : c ++ x = w at h
  cases h with
  | nil =>
    have hcnil : c = [] := (List.append_eq_nil.mp hgen).1
    rw [hcnil] at hc
    simp [validChar] at hc
  | cons c' r' hc' hr' =>
    obtain ⟨a, t, hct, hlen⟩ := validChar_head_length c hc
    obtain ⟨a', t', hct', hlen'⟩ := validChar_head_length c' hc'
    rw [hct, hct'] at hgen
    simp only [List.cons_append, List.cons.injEq] at hgen
    have hheads : a = a' := hgen.1
    have hlens : c.length = c'.length := by
      rw [hlen, hlen', hheads]
    have hgen2 : c ++ x = c' ++ r' := by
      rw [hct, hct']
      simp [List.cons_append, hgen.1, hgen.2]
    obtain ⟨hcc, hxr⟩ := List.append_inj hgen2 hlens
    rwa [hxr]

/-- Stripping a valid front part from a valid byte string leaves a valid
byte string. -/
theorem validUtf8_append_inv (b t : List Nat) (hb : ValidUtf8 b) :
    ValidUtf8 (b ++ t) → ValidUtf8 t := by
  induction hb with
  | nil => intro h; simpa using h
  | cons c r hc _ ih =>
    intro h
    rw [List.append_assoc] at h
    exact ih (validUtf8_drop_char c (r ++ t) hc h)

/-- A proper front part of a single complete character encoding satisfies
`partialChar`. -/
theorem partialChar_of_front (c x y : List Nat) (hc : validChar c = true)
    (hxy : c = x ++ y) (hy : y ≠ []) : partialChar x = true := by
  rcases validChar_shapes c hc with ⟨a, he, h1⟩ | ⟨a, b, he, h1, h2⟩ |
    ⟨a, b, c2, he, h1, h2, h3⟩ | ⟨a, b, c2, d, he, h1, h2, h3, h4⟩ <;>
    subst he
  · cases x with
    | nil => rfl
    | cons x1 xt =>
      simp only [List.cons_append, List.cons.injEq] at hxy
      exact absurd (List.append_eq_nil.mp hxy.2.symm).2 hy
  · cases x with
    | nil => rfl
    | cons x1 xt =>
      simp only [List.cons_append, List.cons.injEq] at hxy
      obtain ⟨rfl, hxy2⟩ := hxy
      cases xt with
      | nil => simp [partialChar, isS2, h1]
      | cons x2 xt2 =>
        simp only [List.cons_append, List.cons.injEq] at hxy2
        exact absurd (List.append_eq_nil.mp hxy2.2.symm).2 hy
  · cases x with
    | nil => rfl
    | cons x1 xt =>
      simp only [List.cons_append, List.cons.injEq] at hxy
      obtain ⟨rfl, hxy2⟩ := hxy
      cases xt with
      | nil => simp [partialChar, isS3, h1]
      | cons x2 xt2 =>
        simp only [List.cons_append, List.cons.injEq] at hxy2
        obtain ⟨rfl, hxy3⟩ := hxy2
        cases xt2 with
        | nil => simp [partialChar, isS3, isCont, h1, h2]
        | cons x3 xt3 =>
          simp only [List.cons_append, List.cons.injEq] at hxy3
          exact absurd (List.append_eq_nil.mp hxy3.2.symm).2 hy
  · cases x with
    | nil => rfl
    | cons x1 xt =>
      simp only [List.cons_append, List.cons.injEq] at hxy
      obtain ⟨rfl, hxy2⟩ := hxy
      cases xt with
      | nil => simp [partialChar, isS4, h1]
      | cons x2 xt2 =>
        simp only [List.cons_append, List.cons.injEq] at hxy2
        obtain ⟨rfl, hxy3⟩ := hxy2
        cases xt2 with
        | nil => simp [partialChar, isS4, isCont, h1, h2]
        | cons x3 xt3 =>
          simp only [List.cons_append, List.cons.injEq] at hxy3
          obtain ⟨rfl, hxy4⟩ := hxy3
          cases xt3 with
          | nil => simp [partialChar, isS4, isCont, h1, h2, h3]
          | cons x4 xt4 =>
            simp only [List.cons_append, List.cons.injEq] at hxy4
            exact absurd (List.append_eq_nil.mp hxy4.2.symm).2 hy

/-- Every front part of a valid byte string splits into whole characters
followed by a front part of one character. -/
theorem validUtf8_front_decomp (w : List Nat) (h : ValidUtf8 w) :
    ∀ x r, x ++ r = w →
      ∃ v p, x = v ++ p ∧ ValidUtf8 v ∧ partialChar p = true := by
  induction h with
  | nil =>
    intro x r hxr
    have hx : x = [] := (List.append_eq_nil.mp hxr).1
    exact ⟨[], [], by simp [hx], .nil, rfl⟩
  | cons c rest hc hrest ih =>
    intro x r hxr
    rcases List.append_eq_append_iff.mp hxr with ⟨a', ha1, _⟩ | ⟨c', hc1, hc2⟩
    · by_cases ha' : a' = []
      · subst ha'
        have hx : x = c := by simpa using ha1.symm
        have hvx : ValidUtf8 x := by
          have h0 : ValidUtf8 (c ++ []) := .cons c [] hc .nil
          rw [List.append_nil] at h0
          rw [hx]
          exact h0
        exact ⟨x, [], by simp, hvx, rfl⟩
      · exact ⟨[], x, by simp, .nil, partialChar_of_front c x a' hc ha1 ha'⟩
    · obtain ⟨v', p, hvp, hv', hp⟩ := ih c' r hc2.symm
      exact ⟨c ++ v', p, by rw [hc1, hvp, List.append_assoc],
        .cons c v' hc hv', hp⟩

/-- A non-empty valid byte string starts with a character whose length is
given by the class of its first byte. -/
theorem validUtf8_head_class_length (p : List Nat) (hv : ValidUtf8 p)
    (hne : p ≠ []) :
    ∃ a t r, p = a :: (t ++ r) ∧
      (a :: t).length = (match byteClass a with
        | .ascii => 1 | .cont => 0 | .s2 => 2 | .s3 => 3 | .s4 => 4
        | .invalid => 0) := by
  cases hv with
  | nil => exact absurd rfl hne
  | cons c r hc hr =>
    obtain ⟨a, t, hct, hlen⟩ := validChar_head_length c hc
    rw [hct] at hlen
    exact ⟨a, t, r, by rw [hct]; simp, hlen⟩

/-- A valid byte string that is also a front part of a single character is
empty. -/
theorem partialChar_valid_nil (p : List Nat) (hp : partialChar p = true)
    (hv : ValidUtf8 p) : p = [] := by
  rcases partialChar_shapes p hp with rfl | ⟨a, he, hcl⟩ | ⟨a, b, he, hcl, -⟩ |
    ⟨a, b, c2, he, hcl, -, -⟩
  · rfl
  · subst he
    exfalso
    obtain ⟨a', t, r, heq, hlen⟩ :=
      validUtf8_head_class_length [a] hv (by simp)
    simp only [List.cons.injEq] at heq
    have ht : t = [] := (List.append_eq_nil.mp heq.2.symm).1
    rw [← heq.1, ht] at hlen
    rcases hcl with h | h | h <;> rw [h] at hlen <;> simp at hlen
  · subst he
    exfalso
    obtain ⟨a', t, r, heq, hlen⟩ :=
      validUtf8_head_class_length [a, b] hv (by simp)
    simp only [List.cons.injEq] at heq
    have hL : t.length + r.length = 1 := by
      have h2 := congrArg List.length heq.2
      simpa using h2.symm
    rw [← heq.1] at hlen
    rcases hcl with h | h <;> rw [h] at hlen <;> simp at hlen <;> omega
  · subst he
    exfalso
    obtain ⟨a', t, r, heq, hlen⟩ :=
      validUtf8_head_class_length [a, b, c2] hv (by simp)
    simp only [List.cons.injEq] at heq
    have hL : t.length + r.length = 2 := by
      have h2 := congrArg List.length heq.2
      simpa using h2.symm
    rw [← heq.1, hcl] at hlen
    simp at hlen
    omega

/-- Chunk lists whose members are all valid flatten to a valid byte
string. -/
theorem validUtf8_flatten (l : List (List Nat))
    (h : ∀ ch ∈ l, ValidUtf8 ch) : ValidUtf8 l.flatten := by
  induction l with
  | nil => exact .nil
  | cons x xs ih =>
    rw [List.flatten_cons]
    exact validUtf8_append _ _ (h x (by simp))
      (ih (fun ch hch => h ch (by simp [hch])))

/-- Detokenization distributes over append. -/
theorem detokList_append (detok : Nat → List Nat) (xs ys : List Nat) :
    detokList detok (xs ++ ys)
      = detokList detok xs ++ detokList detok ys := by
  simp [detokList]

/-- One unfolding of the scan at fuel 4. -/
theorem safeScan_4 (buf : List Nat) (len i : Nat) :
    safeScan buf len 4 i
      = if i < len then
          match byteClass (buf.getD (len - 1 - i) 0) with
          | .ascii => len
          | .cont => safeScan buf len 3 (i + 1)
          | .s2 => if 1 ≤ i then len else len - 1 - i
          | .s3 => if 2 ≤ i then len else len - 1 - i
          | .s4 => if 3 ≤ i then len else len - 1 - i
          | .invalid => safeScan buf len 3 (i + 1)
        else len := rfl

/-- One unfolding of the scan at fuel 3. -/
theorem safeScan_3 (buf : List Nat) (len i : Nat) :
    safeScan buf len 3 i
      = if i < len then
          match byteClass (buf.getD (len - 1 - i) 0) with
          | .ascii => len
          | .cont => safeScan buf len 2 (i + 1)
          | .s2 => if 1 ≤ i then len else len - 1 - i
          | .s3 => if 2 ≤ i then len else len - 1 - i
          | .s4 => if 3 ≤ i then len else len - 1 - i
          | .invalid => safeScan buf len 2 (i + 1)
        else len := rfl

/-- One unfolding of the scan at fuel 2. -/
theorem safeScan_2 (buf : List Nat) (len i : Nat) :
    safeScan buf len 2 i
      = if i < len then
          match byteClass (buf.getD (len - 1 - i) 0) with
          | .ascii => len
          | .cont => safeScan buf len 1 (i + 1)
          | .s2 => if 1 ≤ i then len else len - 1 - i
          | .s3 => if 2 ≤ i then len else len - 1 - i
          | .s4 => if 3 ≤ i then len else len - 1 - i
          | .invalid => safeScan buf len 1 (i + 1)
        else len := rfl

/-- One unfolding of the scan at fuel 1. -/
theorem safeScan_1 (buf : List Nat) (len i : Nat) :
    safeScan buf len 1 i
      = if i < len then
          match byteClass (buf.getD (len - 1 - i) 0) with
          | .ascii => len
          | .cont => safeScan buf len 0 (i + 1)
          | .s2 => if 1 ≤ i then len else len - 1 - i
          | .s3 => if 2 ≤ i then len else len - 1 - i
          | .s4 => if 3 ≤ i then len else len - 1 - i
          | .invalid => safeScan buf len 0 (i + 1)
        else len := rfl

/-- The safe UTF-8 length of a valid byte string is its full length: the
backward scan finds the complete final character. -/
theorem get_safe_of_valid (v : List Nat) (hv : ValidUtf8 v) :
    get_safe_utf8_length v = v.length := by
  rcases validUtf8_last v hv with rfl | ⟨v', c, rfl, hc, hv'⟩
  · rfl
  · rcases validChar_shapes c hc with ⟨a, rfl, h1⟩ | ⟨a, b, rfl, h1, h2⟩ |
      ⟨a, b, c2, rfl, h1, h2, h3⟩ | ⟨a, b, c2, d, rfl, h1, h2, h3, h4⟩
    · have hlen : (v' ++ [a]).length = v'.length + 1 := by simp
      unfold get_safe_utf8_length
      rw [if_neg (by simp), hlen, safeScan_4, if_pos (by omega)]
      have hidx : v'.length + 1 - 1 - 0 = v'.length := by omega
      rw [hidx, List.getD_append_right v' [a] 0 v'.length (Nat.le_refl _)]
      simp only [Nat.sub_self, List.getD_cons_zero]
      rw [h1]
    · have hlen : (v' ++ [a, b]).length = v'.length + 2 := by simp
      unfold get_safe_utf8_length
      rw [if_neg (by simp), hlen, safeScan_4, if_pos (by omega)]
      have hidx : v'.length + 2 - 1 - 0 = v'.length + 1 := by omega
      rw [hidx,
        List.getD_append_right v' [a, b] 0 (v'.length + 1) (by omega)]
      have hsub : v'.length + 1 - v'.length = 1 := by omega
      rw [hsub]
      simp only [List.getD_cons_succ, List.getD_cons_zero]
      rw [h2]
      rw [safeScan_3, if_pos (by omega)]
      have hidx2 : v'.length + 2 - 1 - (0 + 1) = v'.length := by omega
      rw [hidx2, List.getD_append_right v' [a, b] 0 v'.length (Nat.le_refl _)]
      simp only [Nat.sub_self, List.getD_cons_zero]
      rw [h1]
      simp
    · have hlen : (v' ++ [a, b, c2]).length = v'.length + 3 := by simp
      unfold get_safe_utf8_length
      rw [if_neg (by simp), hlen, safeScan_4, if_pos (by omega)]
      have hidx : v'.length + 3 - 1 - 0 = v'.length + 2 := by omega
      rw [hidx,
        List.getD_append_right v' [a, b, c2] 0 (v'.length + 2) (by omega)]
      have hsub : v'.length + 2 - v'.length = 2 := by omega
      rw [hsub]
      simp only [List.getD_cons_succ, List.getD_cons_zero]
      rw [h3]
      rw [safeScan_3, if_pos (by omega)]
      have hidx2 : v'.length + 3 - 1 - (0 + 1) = v'.length + 1 := by omega
      rw [hidx2,
        List.getD_append_right v' [a, b, c2] 0 (v'.length + 1) (by omega)]
      have hsub2 : v'.length + 1 - v'.length = 1 := by omega
      rw [hsub2]
      simp only [List.getD_cons_succ, List.getD_cons_zero]
      rw [h2]
      rw [safeScan_2, if_pos (by omega)]
      have hidx3 : v'.length + 3 - 1 - (0 + 1 + 1) = v'.length := by omega
      rw [hidx3,
        List.getD_append_right v' [a, b, c2] 0 v'.length (Nat.le_refl _)]
      simp only [Nat.sub_self, List.getD_cons_zero]
      rw [h1]
      simp
    · have hlen : (v' ++ [a, b, c2, d]).length = v'.length + 4 := by simp
      unfold get_safe_utf8_length
      rw [if_neg (by simp), hlen, safeScan_4, if_pos (by omega)]
      have hidx : v'.length + 4 - 1 - 0 = v'.length + 3 := by omega
      rw [hidx,
        List.getD_append_right v' [a, b, c2, d] 0 (v'.length + 3) (by omega)]
      have hsub : v'.length + 3 - v'.length = 3 := by omega
      rw [hsub]
      simp only [List.getD_cons_succ, List.getD_cons_zero]
      rw [h4]
      rw [safeScan_3, if_pos (by omega)]
      have hidx2 : v'.length + 4 - 1 - (0 + 1) = v'.length + 2 := by omega
      rw [hidx2,
        List.getD_append_right v' [a, b, c2, d] 0 (v'.length + 2) (by omega)]
      have hsub2 : v'.length + 2 - v'.length = 2 := by omega
      rw [hsub2]
      simp only [List.getD_cons_succ, List.getD_cons_zero]
      rw [h3]
      rw [safeScan_2, if_pos (by omega)]
      have hidx3 : v'.length + 4 - 1 - (0 + 1 + 1) = v'.length + 1 := by omega
      rw [hidx3,
        List.getD_append_right v' [a, b, c2, d] 0 (v'.length + 1) (by omega)]
      have hsub3 : v'.length + 1 - v'.length = 1 := by omega
      rw [hsub3]
      simp only [List.getD_cons_succ, List.getD_cons_zero]
      rw [h2]
      rw [safeScan_1, if_pos (by omega)]
      have hidx4 : v'.length + 4 - 1 - (0 + 1 + 1 + 1) = v'.length := by omega
      rw [hidx4,
        List.getD_append_right v' [a, b, c2, d] 0 v'.length (Nat.le_refl _)]
      simp only [Nat.sub_self, List.getD_cons_zero]
      rw [h1]
      simp

/-- The safe UTF-8 length of a valid byte string followed by a front part
of one character is exactly the length of the valid part: the scan hands
back the dangling lead/continuation bytes. -/
theorem get_safe_valid_partial (v p : List Nat) (hv : ValidUtf8 v)
    (hp : partialChar p = true) :
    get_safe_utf8_length (v ++ p) = v.length := by
  rcases partialChar_shapes p hp with rfl | ⟨a, rfl, hcl⟩ |
    ⟨a, b, rfl, hcl, hb⟩ | ⟨a, b, c2, rfl, hcl, hb, hc2⟩
  · rw [List.append_nil]
    exact get_safe_of_valid v hv
  · have hlen : (v ++ [a]).length = v.length + 1 := by simp
    unfold get_safe_utf8_length
    rw [if_neg (by simp), hlen, safeScan_4, if_pos (by omega)]
    have hidx : v.length + 1 - 1 - 0 = v.length := by omega
    rw [hidx, List.getD_append_right v [a] 0 v.length (Nat.le_refl _)]
    simp only [Nat.sub_self, List.getD_cons_zero]
    rcases hcl with h | h | h <;> rw [h] <;> simp
  · have hlen : (v ++ [a, b]).length = v.length + 2 := by simp
    unfold get_safe_utf8_length
    rw [if_neg (by simp), hlen, safeScan_4, if_pos (by omega)]
    have hidx : v.length + 2 - 1 - 0 = v.length + 1 := by omega
    rw [hidx, List.getD_append_right v [a, b] 0 (v.length + 1) (by omega)]
    have hsub : v.length + 1 - v.length = 1 := by omega
    rw [hsub]
    simp only [List.getD_cons_succ, List.getD_cons_zero]
    rw [hb]
    rw [safeScan_3, if_pos (by omega)]
    have hidx2 : v.length + 2 - 1 - (0 + 1) = v.length := by omega
    rw [hidx2, List.getD_append_right v [a, b] 0 v.length (Nat.le_refl _)]
    simp only [Nat.sub_self, List.getD_cons_zero]
    rcases hcl with h | h <;> rw [h] <;> simp
  · have hlen : (v ++ [a, b, c2]).length = v.length + 3 := by simp
    unfold get_safe_utf8_length
    rw [if_neg (by simp), hlen, safeScan_4, if_pos (by omega)]
    have hidx : v.length + 3 - 1 - 0 = v.length + 2 := by omega
    rw [hidx, List.getD_append_right v [a, b, c2] 0 (v.length + 2) (by omega)]
    have hsub : v.length + 2 - v.length = 2 := by omega
    rw [hsub]
    simp only [List.getD_cons_succ, List.getD_cons_zero]
    rw [hc2]
    rw [safeScan_3, if_pos (by omega)]
    have hidx2 : v.length + 3 - 1 - (0 + 1) = v.length + 1 := by omega
    rw [hidx2, List.getD_append_right v [a, b, c2] 0 (v.length + 1) (by omega)]
    have hsub2 : v.length + 1 - v.length = 1 := by omega
    rw [hsub2]
    simp only [List.getD_cons_succ, List.getD_cons_zero]
    rw [hb]
    rw [safeScan_2, if_pos (by omega)]
    have hidx3 : v.length + 3 - 1 - (0 + 1 + 1) = v.length := by omega
    rw [hidx3, List.getD_append_right v [a, b, c2] 0 v.length (Nat.le_refl _)]
    simp only [Nat.sub_self, List.getD_cons_zero]
    rw [hcl]
    simp

/-- When the accumulated buffer splits as whole characters followed by a
front part of one character, the flush emits exactly the whole characters
and retains exactly the dangling bytes. -/
theorem flush_spec (detok : Nat → List Nat) (st : StreamState)
    (V P : List Nat)
    (hsplit : st.output_buffer ++ detokList detok st.buffered_tokens
      = V ++ P)
    (hV : ValidUtf8 V) (hP : partialChar P = true) :
    (flush_utf8_safe_output detok st).1 = V ∧
    (flush_utf8_safe_output detok st).2.output_buffer = P := by
  constructor
  · show (st.output_buffer ++ detokList detok st.buffered_tokens).take
      (get_safe_utf8_length
        (st.output_buffer ++ detokList detok st.buffered_tokens)) = V
    rw [hsplit, get_safe_valid_partial V P hV hP, List.take_left]
  · show (st.output_buffer ++ detokList detok st.buffered_tokens).drop
      (get_safe_utf8_length
        (st.output_buffer ++ detokList detok st.buffered_tokens)) = P
    rw [hsplit, get_safe_valid_partial V P hV hP, List.drop_left]

/-- One unfolding of the generation loop on a component-level state. -/
theorem gsri_cons (detok : Nat → List Nat) (isEog : Nat → Bool)
    (cb : List (List Nat) → Bool) (t : Nat) (rest : List Nat)
    (em : List (List Nat)) (ob buf : List Nat) (tot : Nat) :
    generate_streaming_response_impl detok isEog cb (t :: rest)
        ⟨em, ob, buf, tot⟩
      = if isEog t then
          if buf.isEmpty then ((tot : Int), em)
          else ((tot : Int),
            em ++ [(flush_utf8_safe_output detok ⟨em, ob, buf, tot⟩).1])
        else
          if ((buf ++ [t]).length % 20 == 0) then
            (if cb (em ++ [(flush_utf8_safe_output detok
                ⟨em, ob, buf ++ [t], tot + 1⟩).1])
             then generate_streaming_response_impl detok isEog cb rest
               ⟨em ++ [(flush_utf8_safe_output detok
                   ⟨em, ob, buf ++ [t], tot + 1⟩).1],
                (flush_utf8_safe_output detok
                   ⟨em, ob, buf ++ [t], tot + 1⟩).2.output_buffer,
                [], tot + 1⟩
             else ((tot + 1 : Int),
               em ++ [(flush_utf8_safe_output detok
                  ⟨em, ob, buf ++ [t], tot + 1⟩).1]))
          else generate_streaming_response_impl detok isEog cb rest
            ⟨em, ob, buf ++ [t], tot + 1⟩
      := rfl

/-- Invariant lemma for the streaming loop: along a script of non-EOG
tokens followed by one EOG token, every chunk the loop delivers consists of
whole UTF-8 characters, and with a never-cancelling callback the run
returns the token count with the chunks concatenating to the full
detokenization. -/
theorem stream_run_inv (detok : Nat → List Nat) (isEog : Nat → Bool)
    (cb : List (List Nat) → Bool) (pre : List Nat) (e : Nat)
    (hE : isEog e = true) (hpre : ∀ t ∈ pre, isEog t = false)
    (hvalid : ValidUtf8 (detokList detok pre)) :
    ∀ rest st flushed,
      pre = flushed ++ st.buffered_tokens ++ rest →
      st.emitted.flatten ++ st.output_buffer = detokList detok flushed →
      (∀ ch ∈ st.emitted, ValidUtf8 ch) →
      partialChar st.output_buffer = true →
      st.total_tokens = flushed.length + st.buffered_tokens.length →
      (∀ ch ∈ (generate_streaming_response_impl detok isEog cb
          (rest ++ [e]) st).2, ValidUtf8 ch) ∧
      ((∀ x, cb x = true) →
        (generate_streaming_response_impl detok isEog cb (rest ++ [e]) st).1
          = (pre.length : Int) ∧
        (generate_streaming_response_impl detok isEog cb
          (rest ++ [e]) st).2.flatten = detokList detok pre) := by
  intro rest
  induction rest with
  | nil =>
    intro st flushed h1 h2 h3 h4 h5
    obtain ⟨em, ob, buf, tot⟩ := st
    simp only at h1 h2 h3 h4 h5
    simp only [List.nil_append]
    rw [gsri_cons, hE, if_pos rfl]
    cases buf with
    | nil =>
      rw [if_pos (show ([] : List Nat).isEmpty = true from rfl)]
      have hfl : pre = flushed := by simpa using h1
      refine ⟨fun ch hch => h3 ch hch, fun hcb => ?_⟩
      have hBv : ValidUtf8 em.flatten := validUtf8_flatten em h3
      have hov : ValidUtf8 ob := by
        apply validUtf8_append_inv em.flatten ob hBv
        rw [h2, ← hfl]
        exact hvalid
      have hob : ob = [] := partialChar_valid_nil ob h4 hov
      constructor
      · show ((tot : Nat) : Int) = (pre.length : Int)
        have h5' : tot = flushed.length := by simpa using h5
        rw [h5', hfl]
      · show em.flatten = detokList detok pre
        rw [hob, List.append_nil] at h2
        rw [h2, hfl]
    | cons b0 btl =>
      rw [if_neg (by simp)]
      have h1' : pre = flushed ++ (b0 :: btl) := by simpa using h1
      have hBv : ValidUtf8 em.flatten := validUtf8_flatten em h3
      have hov : ValidUtf8 (ob ++ detokList detok (b0 :: btl)) := by
        apply validUtf8_append_inv em.flatten _ hBv
        rw [← List.append_assoc, h2, ← detokList_append, ← h1']
        exact hvalid
      have hfl1 : (flush_utf8_safe_output detok ⟨em, ob, b0 :: btl, tot⟩).1
          = ob ++ detokList detok (b0 :: btl) :=
        (flush_spec detok ⟨em, ob, b0 :: btl, tot⟩
          (ob ++ detokList detok (b0 :: btl)) [] (by simp) hov rfl).1
      rw [hfl1]
      constructor
      · intro ch hch
        rcases List.mem_append.mp hch with hch | hch
        · exact h3 ch hch
        · simp only [List.mem_singleton] at hch
          rw [hch]
          exact hov
      · intro hcb
        constructor
        · show ((tot : Nat) : Int) = (pre.length : Int)
          have hlen := congrArg List.length h1'
          simp only [List.length_append, List.length_cons] at hlen
          simp only [List.length_cons] at h5
          have : tot = pre.length := by omega
          rw [this]
        · show (em ++ [ob ++ detokList detok (b0 :: btl)]).flatten
            = detokList detok pre
          rw [List.flatten_append]
          simp only [List.flatten_cons, List.flatten_nil, List.append_nil]
          rw [← List.append_assoc, h2, ← detokList_append, ← h1']
  | cons t rest' ih =>
    intro st flushed h1 h2 h3 h4 h5
    obtain ⟨em, ob, buf, tot⟩ := st
    simp only at h1 h2 h3 h4 h5
    have htmem : t ∈ pre := by rw [h1]; simp
    have ht : isEog t = false := hpre t htmem
    simp only [List.cons_append]
    rw [gsri_cons, ht, if_neg (by simp)]
    by_cases h20 : ((buf ++ [t]).length % 20 == 0) = true
    · rw [if_pos h20]
      have h1' : pre = (flushed ++ (buf ++ [t])) ++ rest' := by
        rw [h1]
        simp only [List.append_assoc, List.cons_append, List.nil_append]
      have hBv : ValidUtf8 em.flatten := validUtf8_flatten em h3
      have hov : ValidUtf8 ((ob ++ detokList detok (buf ++ [t]))
          ++ detokList detok rest') := by
        apply validUtf8_append_inv em.flatten _ hBv
        have hEq : em.flatten ++ ((ob ++ detokList detok (buf ++ [t]))
            ++ detokList detok rest') = detokList detok pre := by
          conv_rhs => rw [h1', detokList_append, detokList_append]
          rw [← h2]
          simp only [List.append_assoc]
        rw [hEq]
        exact hvalid
      obtain ⟨V, P, hsplit, hV, hP⟩ := validUtf8_front_decomp _ hov
        (ob ++ detokList detok (buf ++ [t])) (detokList detok rest') rfl
      obtain ⟨hfl1, hfl2⟩ := flush_spec detok ⟨em, ob, buf ++ [t], tot + 1⟩
        V P hsplit hV hP
      rw [hfl1, hfl2]
      by_cases hcb : cb (em ++ [V]) = true
      · rw [if_pos hcb]
        apply ih ⟨em ++ [V], P, [], tot + 1⟩ (flushed ++ (buf ++ [t]))
        · show pre = (flushed ++ (buf ++ [t])) ++ [] ++ rest'
          rw [h1']
          simp
        · show (em ++ [V]).flatten ++ P
            = detokList detok (flushed ++ (buf ++ [t]))
          rw [List.flatten_append]
          simp only [List.flatten_cons, List.flatten_nil, List.append_nil]
          rw [List.append_assoc, ← hsplit, ← List.append_assoc, h2,
            ← detokList_append]
        · intro ch hch
          rcases List.mem_append.mp hch with hch | hch
          · exact h3 ch hch
          · simp only [List.mem_singleton] at hch
            rw [hch]
            exact hV
        · exact hP
        · show tot + 1 = (flushed ++ (buf ++ [t])).length
            + ([] : List Nat).length
          simp only [List.length_append, List.length_cons, List.length_nil]
          omega
      · rw [if_neg hcb]
        constructor
        · intro ch hch
          rcases List.mem_append.mp hch with hch | hch
          · exact h3 ch hch
          · simp only [List.mem_singleton] at hch
            rw [hch]
            exact hV
        · intro hall
          exact absurd (hall (em ++ [V])) hcb
    · rw [if_neg h20]
      apply ih ⟨em, ob, buf ++ [t], tot + 1⟩ flushed
      · show pre = flushed ++ (buf ++ [t]) ++ rest'
        rw [h1]
        simp only [List.append_assoc, List.cons_append, List.nil_append]
      · exact h2
      · exact h3
      · exact h4
      · show tot + 1 = flushed.length + (buf ++ [t]).length
        simp only [List.length_append, List.length_cons, List.length_nil]
        omega

/-! ## Claim C2 -/

/-- C2.  For a streaming run over a token script of non-EOG tokens followed
by the end-of-generation token, assuming the detokenization of the full
generated sequence is valid UTF-8: no callback invocation ever receives a
chunk that ends inside a multi-byte UTF-8 sequence (every delivered chunk
is a concatenation of complete characters, for any callback, including
cancelling ones), and with a never-cancelling callback the loop exits via
the EOG token having delivered chunks whose concatenation is the complete
detokenized byte string — nothing, including a previously retained unsafe
tail, is withheld — and returns the token count. -/
theorem streaming_chunks_utf8_safe_and_complete
    (detok : Nat → List Nat) (isEog : Nat → Bool)
    (cb : List (List Nat) → Bool) (pre : List Nat) (e : Nat)
    (hE : isEog e = true) (hpre : ∀ t ∈ pre, isEog t = false)
    (hvalid : ValidUtf8 (detokList detok pre)) :
    (∀ ch ∈ (generate_streaming_response_impl detok isEog cb
        (pre ++ [e]) initStream).2, ValidUtf8 ch) ∧
    ((∀ x, cb x = true) →
      (generate_streaming_response_impl detok isEog cb
        (pre ++ [e]) initStream).1 = (pre.length : Int) ∧
      (generate_streaming_response_impl detok isEog cb
        (pre ++ [e]) initStream).2.flatten = detokList detok pre) :=
  stream_run_inv detok isEog cb pre e hE hpre hvalid pre initStream []
    (by simp [initStream]) (by simp [initStream, detokList])
    (by simp [initStream]) rfl (by simp [initStream])

/-- Witness for C2: two tokens detokenizing to ASCII bytes, then EOG. -/
theorem streaming_chunks_utf8_safe_and_complete_witness :
    (∀ ch ∈ (generate_streaming_response_impl (fun _ => [104, 105])
        (fun t => t == 9) (fun _ => true) ([1, 2] ++ [9]) initStream).2,
      ValidUtf8 ch) ∧
    ((∀ x, (fun _ => true : List (List Nat) → Bool) x = true) →
      (generate_streaming_response_impl (fun _ => [104, 105])
        (fun t => t == 9) (fun _ => true) ([1, 2] ++ [9]) initStream).1
        = (([1, 2] : List Nat).length : Int) ∧
      (generate_streaming_response_impl (fun _ => [104, 105])
        (fun t => t == 9) (fun _ => true)
        ([1, 2] ++ [9]) initStream).2.flatten
        = detokList (fun _ => [104, 105]) [1, 2]) :=
  streaming_chunks_utf8_safe_and_complete (fun _ => [104, 105])
    (fun t => t == 9) (fun _ => true) [1, 2] 9 rfl (by decide)
    (.cons [104] [105, 104, 105] (by decide)
      (.cons [105] [104, 105] (by decide)
        (.cons [104] [105] (by decide)
          (.cons [105] [] (by decide) .nil))))

/-- Processing fewer tokens than reach the flush threshold only buffers
them. -/
theorem run_steps_no_flush (detok : Nat → List Nat) (isEog : Nat → Bool)
    (cb : List (List Nat) → Bool) :
    ∀ (ts rest : List Nat) (em : List (List Nat)) (ob buf : List Nat)
      (tot : Nat),
      (∀ t ∈ ts, isEog t = false) →
      buf.length + ts.length < 20 →
      generate_streaming_response_impl detok isEog cb (ts ++ rest)
          ⟨em, ob, buf, tot⟩
        = generate_streaming_response_impl detok isEog cb rest
          ⟨em, ob, buf ++ ts, tot + ts.length⟩ := by
  intro ts
  induction ts with
  | nil =>
    intro rest em ob buf tot _ _
    simp
  | cons t ts' ih =>
    intro rest em ob buf tot hall h2
    have ht : isEog t = false := hall t (by simp)
    simp only [List.cons_append]
    rw [gsri_cons, ht, if_neg (by simp)]
    have hlen : ((buf ++ [t]).length % 20 == 0) = false := by
      simp only [List.length_append, List.length_cons, List.length_nil,
        List.length_cons] at h2 ⊢
      have hmod : (buf.length + 1) % 20 = buf.length + 1 :=
        Nat.mod_eq_of_lt (by omega)
      simp [hmod]
    rw [hlen, if_neg (by simp)]
    rw [ih rest em ob (buf ++ [t]) (tot + 1)
      (fun x hx => hall x (by simp [hx]))
      (by simp only [List.length_append, List.length_cons,
            List.length_nil] at h2 ⊢
          omega)]
    have hl : (buf ++ [t]) ++ ts' = buf ++ t :: ts' := by simp
    have hn : tot + 1 + ts'.length = tot + (t :: ts').length := by
      simp only [List.length_cons]
      omega
    rw [hl, hn]

/-- Processing exactly 20 tokens from an empty token buffer performs one
flush and continues with the emitted chunk recorded. -/
theorem run_step_flush20 (detok : Nat → List Nat) (isEog : Nat → Bool)
    (cb : List (List Nat) → Bool) (ts rest : List Nat)
    (em : List (List Nat)) (ob : List Nat) (tot : Nat)
    (hlen : ts.length = 20) (hne : ∀ t ∈ ts, isEog t = false)
    (hcb : cb (em ++
      [(flush_utf8_safe_output detok ⟨em, ob, ts, tot + 20⟩).1]) = true) :
    generate_streaming_response_impl detok isEog cb (ts ++ rest)
        ⟨em, ob, [], tot⟩
      = generate_streaming_response_impl detok isEog cb rest
        ⟨em ++ [(flush_utf8_safe_output detok ⟨em, ob, ts, tot + 20⟩).1],
         (flush_utf8_safe_output detok ⟨em, ob, ts, tot + 20⟩).2.output_buffer,
         [], tot + 20⟩ := by
  obtain ⟨t20, ht20⟩ : ∃ t20, ts.drop 19 = [t20] := by
    apply List.length_eq_one.mp
    rw [List.length_drop, hlen]
  have htake : (ts.take 19).length = 19 := by
    simp [List.length_take, hlen]
  conv_lhs => rw [← List.take_append_drop 19 ts, ht20, List.append_assoc]
  rw [run_steps_no_flush detok isEog cb (ts.take 19) ([t20] ++ rest) em ob
    [] tot (fun x hx => hne x (List.mem_of_mem_take hx)) (by simp [htake])]
  simp only [List.nil_append, List.cons_append]
  have ht20e : isEog t20 = false := by
    apply hne
    have : t20 ∈ ts.drop 19 := by rw [ht20]; simp
    exact List.mem_of_mem_drop this
  rw [gsri_cons, ht20e, if_neg (by simp)]
  have hts : ts.take 19 ++ [t20] = ts := by
    rw [← ht20, List.take_append_drop]
  have hn : tot + (ts.take 19).length + 1 = tot + 20 := by
    rw [htake]
  rw [hts, hn]
  rw [if_pos (show (ts.length % 20 == 0) = true by rw [hlen]; decide)]
  rw [if_pos hcb]

/-! ## Claim C5 -/

/-- C5.  A run that samples exactly 45 non-EOG tokens before the
end-of-generation token, with a never-cancelling callback and no flush
retaining an unsafe tail (each flushed segment detokenizes to a fully safe
byte string), invokes the callback exactly 3 times — after the 20th
buffered token, after the 40th, and once at end-of-generation with the
5-token remainder — and the three chunks concatenate to the detokenization
of the full 45-token response; the run returns 45. -/
theorem streaming_45_tokens_three_chunks
    (detok : Nat → List Nat) (isEog : Nat → Bool) (pre : List Nat) (e : Nat)
    (hlen : pre.length = 45)
    (hpre : ∀ t ∈ pre, isEog t = false)
    (hE : isEog e = true)
    (hs1 : get_safe_utf8_length (detokList detok (pre.take 20))
        = (detokList detok (pre.take 20)).length)
    (hs2 : get_safe_utf8_length (detokList detok ((pre.drop 20).take 20))
        = (detokList detok ((pre.drop 20).take 20)).length)
    (hs3 : get_safe_utf8_length (detokList detok (pre.drop 40))
        = (detokList detok (pre.drop 40)).length) :
    generate_streaming_response_impl detok isEog (fun _ => true)
        (pre ++ [e]) initStream
      = ((45 : Int),
         [detokList detok (pre.take 20),
          detokList detok ((pre.drop 20).take 20),
          detokList detok (pre.drop 40)]) ∧
    detokList detok (pre.take 20) ++ (detokList detok ((pre.drop 20).take 20)
        ++ detokList detok (pre.drop 40)) = detokList detok pre := by
  have hl1 : (pre.take 20).length = 20 := by simp [List.length_take, hlen]
  have hl23 : (pre.drop 20).length = 25 := by simp [List.length_drop, hlen]
  have hl2 : ((pre.drop 20).take 20).length = 20 := by
    simp [List.length_take, hl23]
  have hdd : (pre.drop 20).drop 20 = pre.drop 40 := by
    rw [List.drop_drop]
  have hl3 : (pre.drop 40).length = 5 := by simp [List.length_drop, hlen]
  have hne3 : pre.drop 40 ≠ [] := by
    intro h0
    rw [h0] at hl3
    simp at hl3
  have hscript : pre ++ [e] = pre.take 20
      ++ ((pre.drop 20).take 20 ++ (pre.drop 40 ++ [e])) := by
    conv_lhs => rw [← List.take_append_drop 20 pre]
    conv_lhs => rw [← List.take_append_drop 20 (pre.drop 20)]
    rw [hdd]
    simp only [List.append_assoc]
  rw [hscript,
    show initStream = (⟨[], [], [], 0⟩ : StreamState) from rfl]
  rw [run_step_flush20 detok isEog (fun _ => true) (pre.take 20)
    ((pre.drop 20).take 20 ++ (pre.drop 40 ++ [e])) [] [] 0 hl1
    (fun x hx => hpre x (List.mem_of_mem_take hx)) rfl]
  have hq1a : (flush_utf8_safe_output detok
      ⟨[], [], pre.take 20, 0 + 20⟩).1 = detokList detok (pre.take 20) := by
    show (([] : List Nat) ++ detokList detok (pre.take 20)).take
      (get_safe_utf8_length ([] ++ detokList detok (pre.take 20)))
      = detokList detok (pre.take 20)
    rw [List.nil_append, hs1, List.take_length]
  have hq1b : (flush_utf8_safe_output detok
      ⟨[], [], pre.take 20, 0 + 20⟩).2.output_buffer = [] := by
    show (([] : List Nat) ++ detokList detok (pre.take 20)).drop
      (get_safe_utf8_length ([] ++ detokList detok (pre.take 20))) = []
    rw [List.nil_append, hs1, List.drop_length]
  rw [hq1a, hq1b,
    show ([] : List (List Nat)) ++ [detokList detok (pre.take 20)]
      = [detokList detok (pre.take 20)] from List.nil_append _]
  rw [run_step_flush20 detok isEog (fun _ => true) ((pre.drop 20).take 20)
    (pre.drop 40 ++ [e]) [detokList detok (pre.take 20)] [] (0 + 20) hl2
    (fun x hx =>
      hpre x (List.mem_of_mem_drop (List.mem_of_mem_take hx))) rfl]
  have hq2a : (flush_utf8_safe_output detok
      ⟨[detokList detok (pre.take 20)], [], (pre.drop 20).take 20,
        0 + 20 + 20⟩).1 = detokList detok ((pre.drop 20).take 20) := by
    show (([] : List Nat) ++ detokList detok ((pre.drop 20).take 20)).take
      (get_safe_utf8_length ([] ++ detokList detok ((pre.drop 20).take 20)))
      = detokList detok ((pre.drop 20).take 20)
    rw [List.nil_append, hs2, List.take_length]
  have hq2b : (flush_utf8_safe_output detok
      ⟨[detokList detok (pre.take 20)], [], (pre.drop 20).take 20,
        0 + 20 + 20⟩).2.output_buffer = [] := by
    show (([] : List Nat) ++ detokList detok ((pre.drop 20).take 20)).drop
      (get_safe_utf8_length ([] ++ detokList detok ((pre.drop 20).take 20)))
      = []
    rw [List.nil_append, hs2, List.drop_length]
  rw [hq2a, hq2b, List.singleton_append]
  rw [run_steps_no_flush detok isEog (fun _ => true) (pre.drop 40) [e]
    [detokList detok (pre.take 20), detokList detok ((pre.drop 20).take 20)]
    [] [] (0 + 20 + 20)
    (fun x hx => hpre x (List.mem_of_mem_drop hx)) (by simp [hl3])]
  rw [show ([] : List Nat) ++ pre.drop 40 = pre.drop 40
    from List.nil_append _, hl3]
  rw [gsri_cons, hE, if_pos rfl,
    if_neg (fun hcontra => hne3 (List.isEmpty_iff.mp hcontra))]
  have hq3a : (flush_utf8_safe_output detok
      ⟨[detokList detok (pre.take 20),
        detokList detok ((pre.drop 20).take 20)], [], pre.drop 40,
        0 + 20 + 20 + 5⟩).1 = detokList detok (pre.drop 40) := by
    show (([] : List Nat) ++ detokList detok (pre.drop 40)).take
      (get_safe_utf8_length ([] ++ detokList detok (pre.drop 40)))
      = detokList detok (pre.drop 40)
    rw [List.nil_append, hs3, List.take_length]
  rw [hq3a]
  constructor
  · norm_num
  · rw [← detokList_append, ← detokList_append, ← hdd,
      List.take_append_drop, List.take_append_drop]

/-- Witness for C5: 45 tokens each detokenizing to one ASCII byte, then
EOG. -/
theorem streaming_45_tokens_three_chunks_witness :
    generate_streaming_response_impl (fun _ => [65]) (fun t => t == 99)
        (fun _ => true) (List.replicate 45 0 ++ [99]) initStream
      = ((45 : Int),
         [detokList (fun _ => [65]) ((List.replicate 45 0).take 20),
          detokList (fun _ => [65]) (((List.replicate 45 0).drop 20).take 20),
          detokList (fun _ => [65]) ((List.replicate 45 0).drop 40)]) ∧
    detokList (fun _ => [65]) ((List.replicate 45 0).take 20)
      ++ (detokList (fun _ => [65]) (((List.replicate 45 0).drop 20).take 20)
        ++ detokList (fun _ => [65]) ((List.replicate 45 0).drop 40))
      = detokList (fun _ => [65]) (List.replicate 45 0) :=
  streaming_45_tokens_three_chunks (fun _ => [65]) (fun t => t == 99)
    (List.replicate 45 0) 99 (by decide) (by decide) rfl (by decide)
    (by decide) (by decide)
